import Mathlib

/-!
A verification development for the type-resolution engine of the
`fix-vue-types` package.

The repository ships two parallel implementations of the engine:

* `resolveType.ts` (the file whose functions `resolveTypeElements`,
  `innerResolveTypeElements`, `mergeElements`, `resolveBuiltin`,
  `resolveStringType`, `importSourceToScope`, `innerResolveTypeReference`
  and `inferRuntimeType` are embedded below in namespace `ResolveType`) —
  the babel-AST based engine exercised by the test suite; and
* `oxcResolveTypesResolveType.ts` (functions `resolveTypeElementsInScope`,
  `mergeTypeElements`, `resolveNamedTypeReference`, `resolveImportedScope`,
  `inferRuntimeTypeInScope`, embedded in namespace `OxcResolveType`) —
  the oxc-AST based engine.

The embedding is shallow and value-based, over the sub-language of type
expressions needed by the verified properties:

* AST nodes carry no leading comments; the `@vue-ignore` guard at the top of
  `innerResolveTypeElements` / `inferRuntimeType` (which short-circuits to an
  empty element set / the Unknown tag) therefore never fires and is omitted.
* The per-node memo caches (`_resolvedElements`, `_resolvedReference`,
  `_ownerScope` attachment) are pure memoization / scope plumbing; the
  embedding resolves directly in the ambient scope and omits the caches.
* JavaScript exceptions (both `ctx.error`, which throws, and raw
  `TypeError`s such as iterating `null`) are modelled with `Except`;
  an explicit fuel argument models the finite JS call stack, and running
  out of fuel is an exception (a stack overflow is a catchable JS error).
* JavaScript objects used as string-keyed maps are modelled as ordered
  association lists whose values are `Option Node` — a `none` value models
  a key that is present but bound to `undefined`.
-/

namespace FixVueTypes

/-- The embedded sub-language of AST nodes. Constructors mirror the
`node.type` tags the source switches on; `otherNode ty` stands for any
node type outside the sub-language and always takes the `default` branch
of every source `switch`. Property/method/call signature members are nodes,
exactly as in the source (`TSTypeElement`s are nodes); their string key is
embedded already extracted (a `none` key models a computed / non-literal
key, i.e. `getStringLiteralKey` returning `null`). The source field
`typeAnnotation` is shortened to `typeAnn`, with the inner type stored
directly (the source wraps it in a `TSTypeAnnotation` node). -/
inductive Node where
  | tsStringKeyword
  | tsNumberKeyword
  | tsBooleanKeyword
  | tsObjectKeyword
  | tsNullKeyword
  | tsUndefinedKeyword
  | tsVoidKeyword
  | tsNeverKeyword
  | tsAnyKeyword
  | tsSymbolKeyword
  | tsFunctionType (returnType : Option Node)
  | tsTypeLiteral (members : List Node)
  | tsUnionType (types : List Node)
  | tsIntersectionType (types : List Node)
  | tsLiteralType (literal : Node)
  | strLit (s : String)
  | numLit (n : Nat)
  | boolLit (b : Bool)
  | tsTypeReference (name : String) (typeArgs : Option (List Node))
  | tsIndexedAccessType (objectType indexType : Node)
  | tsTypeAliasDeclaration (name : String) (typeAnn : Node)
  | tsPropertySignature (key : Option String) (optional : Bool) (typeAnn : Option Node)
  | tsMethodSignature (key : Option String) (optional : Bool)
  | tsCallSignatureDeclaration
  | otherNode (ty : String)

mutual

/-- Structural equality of nodes. The source compares nodes by JavaScript
reference identity (`t === u`); the embedding uses structural equality,
which is only consulted by the assignability checker's identity
short-circuit — none of the verified properties exercise it. -/
def Node.beq : Node → Node → Bool
  | .tsStringKeyword, .tsStringKeyword => true
  | .tsNumberKeyword, .tsNumberKeyword => true
  | .tsBooleanKeyword, .tsBooleanKeyword => true
  | .tsObjectKeyword, .tsObjectKeyword => true
  | .tsNullKeyword, .tsNullKeyword => true
  | .tsUndefinedKeyword, .tsUndefinedKeyword => true
  | .tsVoidKeyword, .tsVoidKeyword => true
  | .tsNeverKeyword, .tsNeverKeyword => true
  | .tsAnyKeyword, .tsAnyKeyword => true
  | .tsSymbolKeyword, .tsSymbolKeyword => true
  | .tsFunctionType a, .tsFunctionType b => Node.beqOpt a b
  | .tsTypeLiteral a, .tsTypeLiteral b => Node.beqList a b
  | .tsUnionType a, .tsUnionType b => Node.beqList a b
  | .tsIntersectionType a, .tsIntersectionType b => Node.beqList a b
  | .tsLiteralType a, .tsLiteralType b => Node.beq a b
  | .strLit a, .strLit b => a == b
  | .numLit a, .numLit b => a == b
  | .boolLit a, .boolLit b => a == b
  | .tsTypeReference n a, .tsTypeReference m b => n == m && Node.beqOptList a b
  | .tsIndexedAccessType a b, .tsIndexedAccessType c d => Node.beq a c && Node.beq b d
  | .tsTypeAliasDeclaration n a, .tsTypeAliasDeclaration m b => n == m && Node.beq a b
  | .tsPropertySignature k o a, .tsPropertySignature l p b =>
      k == l && o == p && Node.beqOpt a b
  | .tsMethodSignature k o, .tsMethodSignature l p => k == l && o == p
  | .tsCallSignatureDeclaration, .tsCallSignatureDeclaration => true
  | .otherNode a, .otherNode b => a == b
  | _, _ => false
  termination_by structural a _ => a

/-- Pointwise `Node.beq` on lists. -/
def Node.beqList : List Node → List Node → Bool
  | [], [] => true
  | a :: as, b :: bs => Node.beq a b && Node.beqList as bs
  | _, _ => false
  termination_by structural a _ => a

/-- `Node.beq` lifted to `Option`. -/
def Node.beqOpt : Option Node → Option Node → Bool
  | none, none => true
  | some a, some b => Node.beq a b
  | _, _ => false
  termination_by structural a _ => a

/-- `Node.beqList` lifted to `Option`. -/
def Node.beqOptList : Option (List Node) → Option (List Node) → Bool
  | none, none => true
  | some a, some b => Node.beqList a b
  | _, _ => false
  termination_by structural a _ => a

end

instance : BEq Node := ⟨Node.beq⟩

/-- The `node.type` string of an embedded node, used by default error
messages (`Unresolvable type: ${node.type}`). -/
def Node.typeTag : Node → String
  | .tsStringKeyword => "TSStringKeyword"
  | .tsNumberKeyword => "TSNumberKeyword"
  | .tsBooleanKeyword => "TSBooleanKeyword"
  | .tsObjectKeyword => "TSObjectKeyword"
  | .tsNullKeyword => "TSNullKeyword"
  | .tsUndefinedKeyword => "TSUndefinedKeyword"
  | .tsVoidKeyword => "TSVoidKeyword"
  | .tsNeverKeyword => "TSNeverKeyword"
  | .tsAnyKeyword => "TSAnyKeyword"
  | .tsSymbolKeyword => "TSSymbolKeyword"
  | .tsFunctionType _ => "TSFunctionType"
  | .tsTypeLiteral _ => "TSTypeLiteral"
  | .tsUnionType _ => "TSUnionType"
  | .tsIntersectionType _ => "TSIntersectionType"
  | .tsLiteralType _ => "TSLiteralType"
  | .strLit _ => "StringLiteral"
  | .numLit _ => "NumericLiteral"
  | .boolLit _ => "BooleanLiteral"
  | .tsTypeReference _ _ => "TSTypeReference"
  | .tsIndexedAccessType _ _ => "TSIndexedAccessType"
  | .tsTypeAliasDeclaration _ _ => "TSTypeAliasDeclaration"
  | .tsPropertySignature _ _ _ => "TSPropertySignature"
  | .tsMethodSignature _ _ => "TSMethodSignature"
  | .tsCallSignatureDeclaration => "TSCallSignatureDeclaration"
  | .otherNode ty => ty

/-- `UNKNOWN_TYPE` from `utils.ts`. -/
def UNKNOWN_TYPE : String := "Unknown"

/-- Errors. `ctxError` constructors stand for the distinct `ctx.error`
messages raised by the engine (each carries the interpolated data);
`jsTypeError` models a raw JavaScript `TypeError` (e.g. iterating `null`
or reading a field of `undefined`); `outOfFuel` models exhausting the JS
call stack. -/
inductive Err where
  /-- `Unresolvable type: ${node.type}` -/
  | unresolvableType (ty : String)
  /-- `Unsupported computed key in type referenced by a macro` -/
  | unsupportedComputedKey
  /-- `Unresolvable type reference or unsupported built-in utility type` -/
  | unresolvableReference
  /-- `Failed to resolve index type into finite keys` -/
  | failedResolveIndexKeys
  /-- `Failed to resolve element type from target type` -/
  | failedResolveElementType
  /-- `No fs option provided to compileScript in non-Node environment.` -/
  | noFsOption
  /-- `Failed to resolve import source …. TypeScript is required as a peer
  dep for vue in order to support resolving types from module imports.` —
  the "resolver not registered" error for bare imports. -/
  | typeScriptRequired (source : String)
  /-- `Failed to resolve import source ….` -/
  | failedResolveImportSource (source : String)
  /-- `Failed to load TypeScript ...` (the flag records whether the load
  failure message contained `Cannot find module`). -/
  | failedLoadTS (cannotFind : Bool)
  /-- OxcResolveType: `Cannot resolve module "…" from "…". If this module
  needs TS module resolution, call registerTS(ts) first.` -/
  | cannotResolveModule (source : String)
  /-- OxcResolveType: `Cannot resolve imported type "…" from "…"` -/
  | cannotResolveImportedType (name : String)
  /-- OxcResolveType: `Cannot resolve namespace import …` -/
  | cannotResolveNamespaceImport (source : String)
  /-- A raw JavaScript `TypeError`. -/
  | jsTypeError
  /-- Stack exhaustion (fuel ran out). -/
  | outOfFuel
deriving Repr, DecidableEq

/-- Fallible computations. -/
abbrev M (α : Type) : Type := Except Err α

/-! ### JavaScript objects as string-keyed ordered maps -/

/-- A JavaScript object used as a props map: an ordered association list
with unique keys; a `none` value models a key bound to `undefined`. -/
abbrev PropsMap := List (String × Option Node)

/-- `hasOwn(m, k)`. -/
def objHas (m : PropsMap) (k : String) : Bool :=
  m.any fun e => e.1 == k

/-- The stored entry for `k`: `none` if the key is absent, `some v` if
present with value `v` (itself `none` for an `undefined` binding). -/
def objGetEntry (m : PropsMap) (k : String) : Option (Option Node) :=
  (m.find? fun e => e.1 == k).map (·.2)

/-- `m[k]` as read by JavaScript: collapses an absent key and an
`undefined` binding to `none`. -/
def objGet (m : PropsMap) (k : String) : Option Node :=
  (objGetEntry m k).join

/-- `m[k] = v`: replace in place if the key exists, else append. -/
def objSet (m : PropsMap) (k : String) (v : Option Node) : PropsMap :=
  if objHas m k then
    m.map fun e => if e.1 == k then (k, v) else e
  else
    m ++ [(k, v)]

/-- `Object.keys(m)` (in entry order; the embedding does not replicate the
JavaScript reordering of integer-like keys, which none of the verified
properties depend on — they are all stated membership-wise). -/
def objKeys (m : PropsMap) : List String :=
  m.map (·.1)

/-- Ordered deduplication, as produced by iterating a JS `Set`. -/
def dedup (xs : List String) : List String :=
  xs.foldl (fun acc x => if acc.contains x then acc else acc ++ [x]) []

/-- Simple association-list lookup (for scope tables). -/
def lookupAssoc {α : Type} (m : List (String × α)) (k : String) : Option α :=
  (m.find? fun e => e.1 == k).map (·.2)

/-- JS object / `Map` assignment on a general ordered association list:
replace in place if the key exists, else append. -/
def objSetA {α : Type} (m : List (String × α)) (k : String) (v : α) : List (String × α) :=
  if m.any (fun e => e.1 == k) then
    m.map fun e => if e.1 == k then (k, v) else e
  else
    m ++ [(k, v)]

/-! ### String primitives

Implemented over the underlying character lists so that concrete runs
reduce inside the kernel. -/

/-- `s.startsWith(p)`. -/
def jsStartsWith (s p : String) : Bool :=
  p.data.isPrefixOf s.data

/-- `s.endsWith(p)`. -/
def jsEndsWith (s p : String) : Bool :=
  p.data.isSuffixOf s.data

/-- `s.toUpperCase()` (ASCII case mapping). -/
def jsToUpper (s : String) : String :=
  String.mk (s.data.map Char.toUpper)

/-- `s.toLowerCase()` (ASCII case mapping). -/
def jsToLower (s : String) : String :=
  String.mk (s.data.map Char.toLower)

/-- The whitespace recognised by `String.prototype.trim` (the common
subset). -/
def isJsSpace (c : Char) : Bool :=
  c == ' ' || c == '\t' || c == '\n' || c == '\r'

/-- `s.trim()` on a character list. -/
def jsTrimData (cs : List Char) : List Char :=
  ((cs.dropWhile isJsSpace).reverse.dropWhile isJsSpace).reverse

/-- Split a character list on `/`. -/
def splitPathSegs : List Char → List (List Char)
  | [] => [[]]
  | c :: rest =>
    match splitPathSegs rest with
    | [] => [[]]
    | g :: gs => if c == '/' then [] :: g :: gs else (c :: g) :: gs

namespace ResolveType

/-! ### Scopes and resolution context (`resolveType.ts`) -/

/-- An import binding recorded by `recordImports`. -/
structure ImportBinding where
  source : String
  imported : String
deriving Repr, DecidableEq

/-- A `TypeScope`. The embedding keeps the fields exercised by the verified
properties (`imports`, `types`, `exportedTypes`, `resolvedImportSources`);
the `declares`/`exportedDeclares` tables are consulted only for
`TSTypeQuery` nodes, which are outside the sub-language. -/
structure TypeScope where
  filename : String
  imports : List (String × ImportBinding) := []
  types : List (String × Node) := []
  exportedTypes : List (String × Node) := []
  resolvedImportSources : List (String × String) := []

/-- The filesystem capability (`SFCScriptCompileOptions['fs']`); only
`fileExists` is needed by the embedded import probing. -/
structure FSCap where
  fileExists : String → Bool

/-- The registered TypeScript module, reduced to the two capabilities the
engine consumes: its `sys` filesystem and module-name resolution.
`resolveModule containingFile source` stands for `resolveWithTS`, whose
body (tsconfig discovery plus `ts.resolveModuleName`) delegates to the
external TypeScript collaborator. -/
structure TSMod where
  sys : Option FSCap := none
  resolveModule : String → String → Option String := fun _ _ => none

/-- The resolution context. The module-level mutable singletons `ts` and
`loadTS` (set by `registerTS`) are modelled as context fields;
`fileToScope` stands for the external syntax-tree provider composed with
the scope builder (total in the source: a missing file reads as `''`). -/
structure Ctx where
  fs : Option FSCap := none
  optionsFs : Option FSCap := none
  registeredTS : Option TSMod := none
  loadTS : Option (Except Bool TSMod) := none
  fileToScope : String → TypeScope := fun f => { filename := f }

/-! ### Filesystem plumbing and import-source resolution -/

/-- Strip a trailing `.ts` (`file.replace(/\.ts$/, '')`). -/
def stripTsSuffix (f : String) : String :=
  if jsEndsWith f ".ts" then f.dropRight 3 else f

/-- Strip a trailing `.js` (`filename.replace(/\.js$/, '')`). -/
def stripJsSuffix (f : String) : String :=
  if jsEndsWith f ".js" then f.dropRight 3 else f

/-- The filename rewrite applied by the `resolveFS` wrapper around
`fileExists`/`readFile`. -/
def fsWrapFile (f : String) : String :=
  if jsEndsWith f ".vue" && !jsEndsWith f ".d.vue" then stripTsSuffix f else f

/-- The wrapped filesystem returned by `resolveFS`. -/
def wrapFS (fs : FSCap) : FSCap :=
  ⟨fun f => fs.fileExists (fsWrapFile f)⟩

/-- `resolveFS`: prefer the already-wrapped `ctx.fs`; otherwise load
TypeScript if a loader is registered (a load failure throws one of the two
`Failed to load TypeScript` errors), then fall back to
`ctx.options.fs || ts?.sys`, wrapping the result. The source memoizes the
wrapped fs back onto `ctx.fs`; the embedding is pure. -/
def resolveFS (ctx : Ctx) : M (Option FSCap) := do
  match ctx.fs with
  | some fs => return some fs
  | none =>
    let ts ← match ctx.registeredTS, ctx.loadTS with
      | none, some r =>
        match r with
        | .ok t => pure (some t)
        | .error cannotFind => throw (.failedLoadTS cannotFind)
      | t, _ => pure t
    match ctx.optionsFs.orElse (fun _ => ts.bind (·.sys)) with
    | none => return none
    | some fs => return some (wrapFS fs)

/-- POSIX `dirname` (the embedding does not normalize `..` segments, which
the verified properties do not exercise). -/
def dirnameOf (p : String) : String :=
  let parts := splitPathSegs p.data
  if parts.length ≤ 1 then "."
  else
    let joined := parts.dropLast.foldl
      (fun (acc : Option (List Char)) seg =>
        match acc with
        | none => some seg
        | some a => some (a ++ '/' :: seg))
      none
    String.mk (joined.getD [])

/-- POSIX `join` (likewise without normalization), also standing in for
`joinPaths` from `utils.ts`. -/
def joinPath (a b : String) : String :=
  a ++ "/" ++ b

/-- `path.isAbsolute` on POSIX paths. -/
def isAbsolutePath (s : String) : Bool :=
  jsStartsWith s "/"

/-- `resolveExt`: probe the candidate extension / index-file variants in
order and return the first that exists. -/
def resolveExt (filename0 : String) (fs : FSCap) : Option String :=
  let filename := stripJsSuffix filename0
  let tryResolve := fun (f : String) => if fs.fileExists f then some f else none
  tryResolve (filename ++ ".ts")
  |>.orElse (fun _ => tryResolve (filename ++ ".tsx"))
  |>.orElse (fun _ => tryResolve (filename ++ ".d.ts"))
  |>.orElse (fun _ => tryResolve (filename ++ ".mts"))
  |>.orElse (fun _ => tryResolve (filename ++ ".cts"))
  |>.orElse (fun _ => tryResolve (filename ++ ".d.mts"))
  |>.orElse (fun _ => tryResolve (filename ++ ".d.cts"))
  |>.orElse (fun _ => tryResolve (joinPath filename "index.ts"))
  |>.orElse (fun _ => tryResolve (joinPath filename "index.tsx"))
  |>.orElse (fun _ => tryResolve (joinPath filename "index.d.ts"))
  |>.orElse (fun _ => tryResolve (joinPath filename "index.mts"))
  |>.orElse (fun _ => tryResolve (joinPath filename "index.cts"))
  |>.orElse (fun _ => tryResolve (joinPath filename "index.d.mts"))
  |>.orElse (fun _ => tryResolve (joinPath filename "index.d.cts"))
  |>.orElse (fun _ => tryResolve filename)

/-- `importSourceToScope`: resolve an import source to the imported file's
scope. Relative and absolute sources probe extensions via `resolveExt`;
a bare source requires TypeScript (registered or loadable) — without it
the `typeScriptRequired` ("resolver not registered") error is raised. The
source caches the resolved path back into `scope.resolvedImportSources`
and records a dep; the embedding is pure. The `node` argument only feeds
error locations in the source. -/
def importSourceToScope (ctx : Ctx) (_node : Node) (scope : TypeScope)
    (source : String) : M TypeScope := do
  let fsOpt ← resolveFS ctx
  let some fs := fsOpt | throw .noFsOption
  let resolved ← match lookupAssoc scope.resolvedImportSources source with
    | some r => pure (some r)
    | none =>
      if jsStartsWith source "." then
        pure (resolveExt (joinPath (dirnameOf scope.filename) source) fs)
      else if isAbsolutePath source then
        pure (resolveExt source fs)
      else
        -- module or aliased import - use full TS resolution
        match ctx.registeredTS, ctx.loadTS with
        | some t, _ => pure (t.resolveModule scope.filename source)
        | none, some (.ok t) => pure (t.resolveModule scope.filename source)
        | none, some (.error cannotFind) =>
          -- `ts = loadTS()` here is not guarded: a load failure propagates raw
          throw (.failedLoadTS cannotFind)
        | none, none => throw (.typeScriptRequired source)
  match resolved with
  | some r => return ctx.fileToScope r
  | none => throw (.failedResolveImportSource source)

/-! ### Resolved element maps and merging -/

/-- `ResolvedElements`: the output of the structural decomposer. Props map
string keys to the resolved property-signature nodes (exactly as in the
source, where the stored values are `TSPropertySignature` nodes); `calls`
mirrors the optional call-signature array. -/
structure ResolvedElements where
  props : PropsMap := []
  calls : Option (List Node) := none

/-- `createProperty`: build a synthetic property-signature node. The source
also stores the key expression, `kind: 'get'` and the `_ownerScope`; the
embedding keeps the extracted string key, the optionality and the inner
type of the `TSTypeAnnotation` wrapper. -/
def createProperty (key : Option String) (typeAnn : Option Node) (optional : Bool) : Node :=
  .tsPropertySignature key optional typeAnn

/-- The `.key` field of a props-map value, as the extracted string. -/
def nodeKeyField : Node → Option String
  | .tsPropertySignature k _ _ => k
  | .tsMethodSignature k _ => k
  | _ => none

/-- The `.optional` field of a props-map value (reading a missing field
gives `undefined`, which is falsy). -/
def nodeOptionalField : Node → Bool
  | .tsPropertySignature _ o _ => o
  | .tsMethodSignature _ o => o
  | _ => false

/-- `typeElementsToMap`: collect the members of an object-shaped literal
into a props map. A member whose key is not a statically known string
(`getStringLiteralKey` returning `null`) is a fatal error; call signatures
are collected into `calls`; other members are ignored. The generic-scope
capture (`_ownerScope` on each member) is scope plumbing omitted by the
embedding. -/
def typeElementsToMap (members : List Node) : M ResolvedElements :=
  members.foldlM
    (fun res e =>
      match e with
      | .tsPropertySignature key _ _ =>
        match key with
        | some name => pure { res with props := objSet res.props name (some e) }
        | none => throw Err.unsupportedComputedKey
      | .tsMethodSignature key _ =>
        match key with
        | some name => pure { res with props := objSet res.props name (some e) }
        | none => throw Err.unsupportedComputedKey
      | .tsCallSignatureDeclaration =>
        pure { res with calls := some ((res.calls.getD []) ++ [e]) }
      | _ => pure res)
    {}

/-- The `type` argument of `mergeElements`
(`'TSUnionType' | 'TSIntersectionType'`). -/
inductive MergeKind where
  | union
  | inter
deriving Repr, DecidableEq

/-- The synthetic combined type node built on a key collision. -/
def MergeKind.toNode : MergeKind → List Node → Node
  | .union, ts => .tsUnionType ts
  | .inter, ts => .tsIntersectionType ts

/-- One step of `mergeElements`' inner `for (const key in props)` loop:
a fresh key is assigned; a collision combines the two stored property
nodes into a synthetic property whose type is a union/intersection of the
two and whose optionality is the OR of the two. Reading `.key` /
`.optional` of an `undefined` props-map entry raises a `TypeError`. -/
def mergePropsEntry (kind : MergeKind) (baseProps : PropsMap) (kv : String × Option Node) :
    M PropsMap :=
  if objHas baseProps kv.1 then
    match objGet baseProps kv.1, kv.2 with
    | some b, some p =>
      pure (objSet baseProps kv.1 (some (createProperty (nodeKeyField b)
        (some (kind.toNode [b, p])) (nodeOptionalField b || nodeOptionalField p))))
    | _, _ => throw Err.jsTypeError
  else
    pure (objSet baseProps kv.1 kv.2)

/-- The inner key loop of `mergeElements` over one operand's props. -/
def mergeProps (kind : MergeKind) (baseProps : PropsMap) (props : PropsMap) : M PropsMap :=
  props.foldlM (mergePropsEntry kind) baseProps

/-- The outer loop body of `mergeElements`: merge one operand into the
accumulated result (calls are appended, initializing the array when the
operand carries one). -/
def mergeElementsStep (kind : MergeKind) (res m : ResolvedElements) : M ResolvedElements := do
  let props ← mergeProps kind res.props m.props
  let calls := match m.calls with
    | some cs => some ((res.calls.getD []) ++ cs)
    | none => res.calls
  pure { props := props, calls := calls }

/-- `mergeElements`: merge a list of decomposed element maps. A singleton
list is returned as-is. -/
def mergeElements (maps : List ResolvedElements) (kind : MergeKind) : M ResolvedElements :=
  match maps with
  | [m] => pure m
  | _ => maps.foldlM (mergeElementsStep kind) {}

/-! ### Small helpers used by the decomposer -/

/-- `SupportedBuiltinsSet`. -/
def SupportedBuiltinsSet : List String :=
  ["Partial", "Required", "Record", "Readonly", "Pick", "Omit", "FlatArray",
   "Extract", "Exclude", "InstanceType", "Awaited", "Parameters"]

/-- `getReferenceName` (sub-language: plain identifier references; every
other node maps to `'default'`). -/
def getReferenceName : Node → String
  | .tsTypeReference n _ => n
  | _ => "default"

/-- Lookup in the `typeParameters` record (`typeParameters &&
typeParameters[name]`). -/
def tpGet (tp : Option (List (String × Node))) (name : String) : Option Node :=
  tp.bind fun m => lookupAssoc m name

/-- `typeParamNodes![i]` followed by dereferencing the result: a missing
type-argument list or a missing element is a `TypeError` at (or just
after) the access. -/
def getTypeArg (typeArgs : Option (List Node)) (i : Nat) : M Node :=
  match typeArgs with
  | none => throw Err.jsTypeError
  | some l =>
    match l.get? i with
    | some n => pure n
    | none => throw Err.jsTypeError

/-- `{ ...t.props[key], optional: b }` — a spread copy of a props-map value
with its optionality overridden; spreading an `undefined` value yields a
bare `{ optional: b }` object, modelled as an empty property signature. -/
def spreadSetOptional (v : Option Node) (b : Bool) : Node :=
  match v with
  | some (.tsPropertySignature k _ ta) => .tsPropertySignature k b ta
  | some (.tsMethodSignature k _) => .tsMethodSignature k b
  | some n => n
  | none => .tsPropertySignature none b none

/-- `ctorToType`: map an `XXXConstructor` reference name to a type node. -/
def ctorToType (ctorType : String) : Node :=
  let ctor := ctorType.dropRight 11
  if ctor == "String" then .tsStringKeyword
  else if ctor == "Number" then .tsNumberKeyword
  else if ctor == "Boolean" then .tsBooleanKeyword
  else if ["Array", "Function", "Object", "Set", "Map", "WeakSet", "WeakMap",
           "Date", "Promise"].contains ctor then
    .tsTypeReference ctor none
  else .tsNullKeyword

/-- `findStaticPropertyType`: the inner type of the first property
signature with the given string key and a type annotation. -/
def findStaticPropertyType (members : List Node) (key : String) : Option Node :=
  (members.find? fun m =>
    match m with
    | .tsPropertySignature (some k) _ (some _) => k == key
    | _ => false).bind fun m =>
      match m with
      | .tsPropertySignature _ _ ta => ta
      | _ => none

/-! ### String-set elements

`resolveStringType` is typed `string[]` in the source but can return `null`
(for the bare `string` keyword) and can produce arrays containing `null`
elements (a `.flat()`/`.flatMap()` over member results keeps a `null`
member result as an element). An element is therefore `Option String`,
`none` being a JavaScript `null`. -/

/-- A string-set element; `none` is a JS `null` element. -/
abbrev StrE := Option String

/-- Using a string-set element as an object key: JavaScript coerces `null`
to the string `"null"`. -/
def strEKey : StrE → String
  | some s => s
  | none => "null"

/-- `@vue/shared`'s `capitalize` (`str.charAt(0).toUpperCase() +
str.slice(1)`; safe on the empty string). Case mapping is ASCII. -/
def jsCapitalize (s : String) : String :=
  match s.data with
  | [] => s
  | c :: rest => String.mk (c.toUpper :: rest)

/-- `s.toUpperCase()` element-wise; `null.toUpperCase()` is a `TypeError`. -/
def strEUpper : StrE → M String
  | some s => pure (jsToUpper s)
  | none => throw Err.jsTypeError

/-- `s.toLowerCase()` element-wise. -/
def strELower : StrE → M String
  | some s => pure (jsToLower s)
  | none => throw Err.jsTypeError

/-- Element-wise `capitalize`. -/
def strECapitalize : StrE → M String
  | some s => pure (jsCapitalize s)
  | none => throw Err.jsTypeError

/-- Element-wise `s[0].toLowerCase() + s.slice(1)` (`Uncapitalize`);
unlike `capitalize` this indexes `s[0]`, so the empty string is a
`TypeError`. -/
def strEUncapitalize : StrE → M String
  | some s =>
    match s.data with
    | [] => throw Err.jsTypeError
    | c :: rest => pure (String.mk (c.toLower :: rest))
  | none => throw Err.jsTypeError

/-- Concatenate member results as `.flat()` / `.flatMap()` does: a whole
`null` member result is kept as a single `null` element. -/
def flatStrResults (results : List (Option (List StrE))) : List StrE :=
  results.foldl
    (fun acc r =>
      match r with
      | some xs => acc ++ xs
      | none => acc ++ [none])
    []

/-- The property types selected by an index-type key list:
`resolved.props[key]?.typeAnnotation?.typeAnnotation`, kept when present. -/
def indexTargets (props : PropsMap) (keys : List String) : List Node :=
  keys.foldl
    (fun acc k =>
      match objGet props k with
      | some (.tsPropertySignature _ _ (some ta)) => acc ++ [ta]
      | _ => acc)
    []

/-! ### The structural decomposer, string-set evaluator, assignability
checker and runtime-tag inferencer (`resolveType.ts`)

Each function consumes one unit of fuel per call; running out of fuel
throws `outOfFuel` (a stack overflow, which JavaScript surfaces as a
catchable `RangeError`). The per-node caches, dependency recording and
`_ownerScope` attachment of the source are omitted (pure memoization /
scope plumbing); recursion into a resolved declaration happens in the
scope the declaration was found in. -/

mutual

/-- `resolveTypeElements` (the exported entry; its `_resolvedElements`
memo cache is omitted). -/
def resolveTypeElements (ctx : Ctx) (fuel : Nat) (node : Node) (scope : TypeScope)
    (tp : Option (List (String × Node))) : M ResolvedElements :=
  match fuel with
  | 0 => throw Err.outOfFuel
  | fuel + 1 => innerResolveTypeElements ctx fuel node scope tp
  termination_by structural fuel

/-- `innerResolveTypeElements`: the case analysis of the structural
decomposer over the sub-language (nodes carry no leading comments, so the
`@vue-ignore` guard never fires and is omitted). Node types outside the
source's `switch` fall to the `Unresolvable type` error. -/
def innerResolveTypeElements (ctx : Ctx) (fuel : Nat) (node : Node) (scope : TypeScope)
    (tp : Option (List (String × Node))) : M ResolvedElements :=
  match fuel with
  | 0 => throw Err.outOfFuel
  | fuel + 1 =>
    match node with
    | .tsTypeLiteral members => typeElementsToMap members
    | .tsTypeAliasDeclaration _ ta => resolveTypeElements ctx fuel ta scope tp
    | .tsNeverKeyword => pure {}
    | .tsFunctionType _ => pure { props := [], calls := some [node] }
    | .tsUnionType types => do
      let rs ← types.mapM fun t => resolveTypeElements ctx fuel t scope tp
      mergeElements rs .union
    | .tsIntersectionType types => do
      let rs ← types.mapM fun t => resolveTypeElements ctx fuel t scope tp
      mergeElements rs .inter
    | .tsIndexedAccessType objectType indexType => do
      let types ← resolveIndexType ctx fuel objectType indexType scope tp
      let rs ← types.mapM fun t => resolveTypeElements ctx fuel t scope tp
      mergeElements rs .union
    | .tsTypeReference typeName typeArgs =>
      if (typeName == "ExtractPropTypes" || typeName == "ExtractPublicPropTypes")
          && typeArgs.isSome
          && ((lookupAssoc scope.imports typeName).map (·.source) == some "vue") then do
        let arg ← getTypeArg typeArgs 0
        let inner ← resolveTypeElements ctx fuel arg scope tp
        resolveExtractPropTypes ctx fuel inner scope
      else do
        let resolved ← resolveTypeReference ctx fuel node scope
        match resolved with
        | some (resNode, resScope) =>
          -- the generic-parameter instantiation block requires the resolved
          -- declaration to carry `typeParameters`, which declarations of the
          -- sub-language never do: `typeParams` stays undefined
          resolveTypeElements ctx fuel resNode resScope none
        | none =>
          match tpGet tp typeName with
          | some bound => resolveTypeElements ctx fuel bound scope tp
          | none =>
            if SupportedBuiltinsSet.contains typeName then
              resolveBuiltin ctx fuel typeName typeArgs scope tp
            else if typeName == "ReturnType" && typeArgs.isSome then do
              let arg ← getTypeArg typeArgs 0
              let ret ← resolveReturnType ctx fuel arg scope tp
              match ret with
              | some r => resolveTypeElements ctx fuel r scope none
              | none => throw Err.unresolvableReference
            else throw Err.unresolvableReference
    | _ => throw (Err.unresolvableType node.typeTag)
  termination_by structural fuel

/-- `resolveBuiltin`: the closed utility-type catalogue. `resolveT`
decomposes the first type argument; the `Partial`/`Required`/`Readonly`/
`Pick`/`Omit` cases run it inside `try { … } catch { return ∅ }`. -/
def resolveBuiltin (ctx : Ctx) (fuel : Nat) (name : String) (typeArgs : Option (List Node))
    (scope : TypeScope) (tp : Option (List (String × Node))) : M ResolvedElements :=
  match fuel with
  | 0 => throw Err.outOfFuel
  | fuel + 1 =>
    let resolveT : M ResolvedElements := do
      let arg ← getTypeArg typeArgs 0
      resolveTypeElements ctx fuel arg scope tp
    if name == "Partial" then
      match resolveT with
      | .error _ => pure {}
      | .ok t =>
        pure { props := t.props.map fun kv => (kv.1, some (spreadSetOptional kv.2 true)),
               calls := t.calls }
    else if name == "Required" then
      match resolveT with
      | .error _ => pure {}
      | .ok t =>
        pure { props := t.props.map fun kv => (kv.1, some (spreadSetOptional kv.2 false)),
               calls := t.calls }
    else if name == "Readonly" then
      match resolveT with
      | .error _ => pure {}
      | .ok t => pure t
    else if name == "Pick" then do
      let t ← match resolveT with
        | .error _ => pure ({} : ResolvedElements)
        | .ok t => pure t
      let arg1 ← getTypeArg typeArgs 1
      let picked ← resolveStringType ctx fuel arg1 scope tp
      match picked with
      | none => throw Err.jsTypeError   -- `for (const key of picked)` over null
      | some keys =>
        pure { props := keys.foldl (fun m k => objSet m (strEKey k) (objGet t.props (strEKey k))) [],
               calls := t.calls }
    else if name == "Omit" then do
      let t ← match resolveT with
        | .error _ => pure ({} : ResolvedElements)
        | .ok t => pure t
      let arg1 ← getTypeArg typeArgs 1
      let omitted ← resolveStringType ctx fuel arg1 scope tp
      let props ← t.props.foldlM
        (fun m kv => do
          let keep ← match omitted with
            | none => throw Err.jsTypeError   -- `omitted.includes(key)` on null
            | some os => pure (!os.contains (some kv.1))
          if keep then pure (objSet m kv.1 (objGet t.props kv.1)) else pure m)
        []
      pure { props := props, calls := t.calls }
    else if name == "Record" then do
      let keysParam ← getTypeArg typeArgs 0
      let valueType := typeArgs.bind fun l => l.get? 1
      if keysParam == Node.tsStringKeyword then pure {}
      else do
        let keysRes ← resolveStringType ctx fuel keysParam scope tp
        match keysRes with
        | none => throw Err.jsTypeError   -- `for (const key of keys)` over null
        | some keys =>
          let props := keys.foldl
            (fun m k => objSet m (strEKey k)
              (some (createProperty (some (strEKey k)) valueType false))) []
          pure { props := props }
    else if name == "Extract" || name == "Exclude" then do
      let t ← getTypeArg typeArgs 0
      let u ← getTypeArg typeArgs 1
      let members ← resolveUnionMembers ctx fuel t scope tp
      let filtered ← members.filterM fun m => do
        let isAssignable ← checkAssignability ctx fuel m u scope tp
        pure (if name == "Extract" then isAssignable else !isAssignable)
      let rs ← filtered.mapM fun m => resolveTypeElements ctx fuel m scope tp
      mergeElements rs .union
    else if name == "InstanceType" then do
      let t ← getTypeArg typeArgs 0
      match t with
      | .tsTypeReference _ _ => do
        -- a resolved `ClassDeclaration` would be unwrapped here; class
        -- declarations are outside the sub-language, so the TODO branch
        -- yields the empty element set
        let _ ← resolveTypeReference ctx fuel t scope
        pure {}
      | _ => pure {}
    else if name == "Awaited" then do
      let t ← getTypeArg typeArgs 0
      let unwrapped ← resolveAwaitedType ctx fuel t scope tp
      resolveTypeElements ctx fuel unwrapped scope tp
    else if name == "Parameters" then
      pure {}
    else
      -- `FlatArray` has no case in the switch and falls to `{ props: {} }`
      pure {}
  termination_by structural fuel

/-- `resolveStringType`: reduce a type to a finite list of string keys.
The bare `string` keyword returns JavaScript `null` (`return null as any`,
annotated "Handled in TSIntersectionType"); node types without a case are
the `Failed to resolve index type into finite keys` error. -/
def resolveStringType (ctx : Ctx) (fuel : Nat) (node : Node) (scope : TypeScope)
    (tp : Option (List (String × Node))) : M (Option (List StrE)) :=
  match fuel with
  | 0 => throw Err.outOfFuel
  | fuel + 1 =>
    match node with
    | .strLit s => pure (some [some s])
    | .numLit n => pure (some [some (toString n)])
    | .tsNeverKeyword => pure (some [])
    | .tsStringKeyword => pure none
    | .tsLiteralType l => resolveStringType ctx fuel l scope tp
    | .tsUnionType types => do
      let results ← types.mapM fun t => resolveStringType ctx fuel t scope tp
      pure (some (flatStrResults results))
    | .tsIntersectionType types => do
      let res ← types.foldlM
        (fun (res : Option (List StrE)) t => do
          match t with
          | .tsStringKeyword => pure res    -- continue
          | _ =>
            let keys ← resolveStringType ctx fuel t scope tp
            match res with
            | none => pure keys             -- res === null, take keys (possibly null)
            | some xs =>
              -- res = res.filter(k => keys.includes(k)); the callback
              -- dereferences a null `keys` on the first element
              if xs.isEmpty then pure (some [])
              else
                match keys with
                | none => throw Err.jsTypeError
                | some ks => pure (some (xs.filter fun k => ks.contains k)))
        none
      pure (some (res.getD []))             -- `return res || []`
    | .tsTypeReference name typeArgs => do
      let resolved ← resolveTypeReference ctx fuel node scope
      match resolved with
      | some (resNode, resScope) =>
        match resNode with
        | .tsTypeAliasDeclaration _ ta =>
          match typeArgs with
          | some _ =>
            -- a fresh empty typeParams record: the resolved alias carries
            -- no type parameters in the sub-language
            resolveStringType ctx fuel ta resScope (some [])
          | none => resolveStringType ctx fuel ta resScope tp
        | _ => resolveStringType ctx fuel resNode scope tp
      | none =>
        match tpGet tp name with
        | some bound => resolveStringType ctx fuel bound scope tp
        | none =>
          let getParam : Nat → M (Option (List StrE)) := fun i =>
            match typeArgs with
            | none => throw Err.jsTypeError      -- node.typeParameters!.params on undefined
            | some l =>
              match l.get? i with
              | none => throw Err.jsTypeError    -- params[i] undefined, dereferenced in the call
              | some p => resolveStringType ctx fuel p scope tp
          if name == "Exclude" then do
            let excluded ← getParam 1
            let base ← getParam 0
            match base with
            | none => throw Err.jsTypeError
            | some bs =>
              if bs.isEmpty then pure (some [])
              else
                match excluded with
                | none => throw Err.jsTypeError
                | some es => pure (some (bs.filter fun s => !es.contains s))
          else if name == "Extract" then do
            let extracted ← getParam 1
            let base ← getParam 0
            match base with
            | none => throw Err.jsTypeError
            | some bs =>
              if bs.isEmpty then pure (some [])
              else
                match extracted with
                | none => throw Err.jsTypeError
                | some es => pure (some (bs.filter fun s => es.contains s))
          else if name == "Uppercase" then do
            let p ← getParam 0
            match p with
            | none => throw Err.jsTypeError
            | some xs => do
              let ys ← xs.mapM strEUpper
              pure (some (ys.map some))
          else if name == "Lowercase" then do
            let p ← getParam 0
            match p with
            | none => throw Err.jsTypeError
            | some xs => do
              let ys ← xs.mapM strELower
              pure (some (ys.map some))
          else if name == "Capitalize" then do
            let p ← getParam 0
            match p with
            | none => throw Err.jsTypeError
            | some xs => do
              let ys ← xs.mapM strECapitalize
              pure (some (ys.map some))
          else if name == "Uncapitalize" then do
            let p ← getParam 0
            match p with
            | none => throw Err.jsTypeError
            | some xs => do
              let ys ← xs.mapM strEUncapitalize
              pure (some (ys.map some))
          else throw Err.failedResolveIndexKeys
    | .tsIndexedAccessType objectType indexType => do
      let types ← resolveIndexType ctx fuel objectType indexType scope tp
      let results ← types.mapM fun t => resolveStringType ctx fuel t scope tp
      pure (some (flatStrResults results))
    | _ => throw Err.failedResolveIndexKeys
  termination_by structural fuel

/-- `resolveIndexType`: the member types selected by `T[K]`. -/
def resolveIndexType (ctx : Ctx) (fuel : Nat) (objectType indexType : Node)
    (scope : TypeScope) (tp : Option (List (String × Node))) : M (List Node) :=
  match fuel with
  | 0 => throw Err.outOfFuel
  | fuel + 1 =>
    if indexType == Node.tsNumberKeyword then
      resolveArrayElementType ctx fuel objectType scope tp
    else if indexType == Node.tsStringKeyword then do
      let resolved ← resolveTypeElements ctx fuel objectType scope tp
      pure (indexTargets resolved.props (objKeys resolved.props))
    else do
      let keysRes ← resolveStringType ctx fuel indexType scope tp
      let resolved ← resolveTypeElements ctx fuel objectType scope tp
      match keysRes with
      | none => throw Err.jsTypeError    -- `for (const key of keys)` over null
      | some keys => pure (indexTargets resolved.props (keys.map strEKey))
  termination_by structural fuel

/-- `resolveArrayElementType` over the sub-language (array, tuple,
expression and `typeof` forms are outside it and fall to the error). -/
def resolveArrayElementType (ctx : Ctx) (fuel : Nat) (node : Node) (scope : TypeScope)
    (tp : Option (List (String × Node))) : M (List Node) :=
  match fuel with
  | 0 => throw Err.outOfFuel
  | fuel + 1 =>
    match node with
    | .tsTypeReference name typeArgs =>
      if name == "Array" && typeArgs.isSome then
        pure (typeArgs.getD [])
      else do
        match tpGet tp name with
        | some bound => resolveArrayElementType ctx fuel bound scope tp
        | none => do
          let resolved ← resolveTypeReference ctx fuel node scope
          match resolved with
          | some (r, _) => resolveArrayElementType ctx fuel r scope tp
          | none => throw Err.failedResolveElementType
    | _ => throw Err.failedResolveElementType
  termination_by structural fuel

/-- `resolveUnionMembers`: flatten a (possibly referenced/aliased) union
into its member nodes; an unresolvable member is returned as-is. -/
def resolveUnionMembers (ctx : Ctx) (fuel : Nat) (node : Node) (scope : TypeScope)
    (tp : Option (List (String × Node))) : M (List Node) :=
  match fuel with
  | 0 => throw Err.outOfFuel
  | fuel + 1 =>
    match node with
    | .tsUnionType types => do
      let rs ← types.mapM fun t => resolveUnionMembers ctx fuel t scope tp
      pure rs.flatten
    | .tsTypeReference name _ => do
      let resolved ← resolveTypeReference ctx fuel node scope
      match resolved with
      | some (r, rscope) =>
        match r with
        | .tsUnionType _ => resolveUnionMembers ctx fuel r rscope none
        | .tsTypeAliasDeclaration _ _ => resolveUnionMembers ctx fuel r rscope none
        | _ => pure [node]
      | none =>
        match tpGet tp name with
        | some bound => resolveUnionMembers ctx fuel bound scope tp
        | none => pure [node]
    | .tsTypeAliasDeclaration _ ta => resolveUnionMembers ctx fuel ta scope tp
    | _ => pure [node]
  termination_by structural fuel

/-- `checkAssignability`: identity short-circuit, literal unwrapping and
the candidate-side reference resolution step. -/
def checkAssignability (ctx : Ctx) (fuel : Nat) (t u : Node) (scope : TypeScope)
    (tp : Option (List (String × Node))) : M Bool :=
  match fuel with
  | 0 => throw Err.outOfFuel
  | fuel + 1 =>
    if t == u then pure true
    else
      -- Handle TSLiteralType unwrapping
      let t := match t with
        | .tsLiteralType l => l
        | t => t
      let u := match u with
        | .tsLiteralType l => l
        | u => u
      -- Resolve references (candidate side)
      match t with
      | .tsTypeReference tname _ => do
        let resolved ← resolveTypeReference ctx fuel t scope
        match resolved with
        | some (r, _) => checkAssignability ctx fuel r u scope tp
        | none =>
          match tpGet tp tname with
          | some bound => checkAssignability ctx fuel bound u scope tp
          | none => checkAssignabilityTarget ctx fuel t u scope tp
      | _ => checkAssignabilityTarget ctx fuel t u scope tp
  termination_by structural fuel

/-- The target-side reference resolution step of `checkAssignability`. -/
def checkAssignabilityTarget (ctx : Ctx) (fuel : Nat) (t u : Node) (scope : TypeScope)
    (tp : Option (List (String × Node))) : M Bool :=
  match fuel with
  | 0 => throw Err.outOfFuel
  | fuel + 1 =>
    match u with
    | .tsTypeReference uname _ => do
      let resolved ← resolveTypeReference ctx fuel u scope
      match resolved with
      | some (r, _) => checkAssignability ctx fuel t r scope tp
      | none =>
        match tpGet tp uname with
        | some bound => checkAssignability ctx fuel t bound scope tp
        | none => checkAssignabilityRest ctx fuel t u scope tp
    | _ => checkAssignabilityRest ctx fuel t u scope tp
  termination_by structural fuel

/-- The terminal checks of `checkAssignability`: same-type comparison,
literal-to-keyword widening, reference equality, and the structural object
checks. -/
def checkAssignabilityRest (ctx : Ctx) (fuel : Nat) (t u : Node) (scope : TypeScope)
    (tp : Option (List (String × Node))) : M Bool :=
  match fuel with
  | 0 => throw Err.outOfFuel
  | fuel + 1 =>
    -- Same type check
    match t, u with
    | .strLit a, .strLit b => pure (a == b)   -- a mismatch also logs to console
    | .numLit a, .numLit b => pure (a == b)
    | .boolLit a, .boolLit b => pure (a == b)
    | .tsStringKeyword, .tsStringKeyword => pure true
    | .tsNumberKeyword, .tsNumberKeyword => pure true
    | .tsBooleanKeyword, .tsBooleanKeyword => pure true
    | .tsAnyKeyword, .tsAnyKeyword => pure true
    -- Literal to Keyword check
    | .strLit _, .tsStringKeyword => pure true
    | .numLit _, .tsNumberKeyword => pure true
    | .boolLit _, .tsBooleanKeyword => pure true
    | t, u =>
      -- Reference check
      match t, u with
      | .tsTypeReference tn _, .tsTypeReference un _ =>
        if tn == un then do
          let tResolved ← resolveTypeReference ctx fuel t scope
          let uResolved ← resolveTypeReference ctx fuel u scope
          -- `tResolved === uResolved` (object identity) modelled structurally
          if (match tResolved, uResolved with
              | some (a, sa), some (b, sb) => a == b && sa.filename == sb.filename
              | _, _ => false) then pure true
          else if (tpGet tp tn).isSome && (tpGet tp un).isSome then pure true
          else checkAssignabilityObject ctx fuel t u scope tp
        else checkAssignabilityObject ctx fuel t u scope tp
      | _, _ => checkAssignabilityObject ctx fuel t u scope tp
  termination_by structural fuel

/-- The structural object checks of `checkAssignability`. -/
def checkAssignabilityObject (ctx : Ctx) (fuel : Nat) (t u : Node) (scope : TypeScope)
    (tp : Option (List (String × Node))) : M Bool :=
  match fuel with
  | 0 => throw Err.outOfFuel
  | fuel + 1 =>
    -- Structural check for objects
    if u == Node.tsObjectKeyword then
      match t with
      | .tsTypeLiteral _ => pure true
      | .tsObjectKeyword => pure true
      | _ => pure false   -- interface/class declarations are outside the sub-language
    else
      match t, u with
      | .tsTypeLiteral tms, .tsTypeLiteral ums =>
        checkObjectMembers ctx fuel tms ums scope tp
      | _, _ => pure false
  termination_by structural fuel

/-- The member loop of the object-literal structural check: every property
signature of the target with a statically known key must exist in the
candidate with a recursively assignable type. -/
def checkObjectMembers (ctx : Ctx) (fuel : Nat) (tms ums : List Node) (scope : TypeScope)
    (tp : Option (List (String × Node))) : M Bool :=
  match fuel with
  | 0 => throw Err.outOfFuel
  | fuel + 1 =>
    match ums with
    | [] => pure true
    | um :: rest =>
      match um with
      | .tsPropertySignature (some key) _ _ =>
        (match tms.find? fun m =>
            match m with
            | .tsPropertySignature (some k) _ _ => k == key
            | _ => false with
        | none => pure false
        | some tm => do
          let ok ← match tm, um with
            | .tsPropertySignature _ _ (some tt), .tsPropertySignature _ _ (some ut) =>
              checkAssignability ctx fuel tt ut scope tp
            | _, _ => pure true
          if ok then checkObjectMembers ctx fuel tms rest scope tp else pure false)
      | _ => checkObjectMembers ctx fuel tms rest scope tp
  termination_by structural fuel

/-- `resolveAwaitedType`: unwrap nested `Promise<…>` references. -/
def resolveAwaitedType (ctx : Ctx) (fuel : Nat) (node : Node) (scope : TypeScope)
    (tp : Option (List (String × Node))) : M Node :=
  match fuel with
  | 0 => throw Err.outOfFuel
  | fuel + 1 =>
    match node with
    | .tsTypeReference name typeArgs =>
      if name == "Promise" && typeArgs.isSome then
        match (typeArgs.getD []).get? 0 with
        | some p => resolveAwaitedType ctx fuel p scope tp
        | none => throw Err.jsTypeError   -- params[0] undefined, dereferenced in the call
      else do
        let resolved ← resolveTypeReference ctx fuel node scope
        match resolved with
        | some (r, rscope) => resolveAwaitedType ctx fuel r rscope none
        | none => pure node
    | .tsTypeAliasDeclaration _ ta => resolveAwaitedType ctx fuel ta scope tp
    | _ => pure node
  termination_by structural fuel

/-- `resolveReturnType` (limited support: reference arguments only). -/
def resolveReturnType (ctx : Ctx) (fuel : Nat) (arg : Node) (scope : TypeScope)
    (tp : Option (List (String × Node))) : M (Option Node) :=
  match fuel with
  | 0 => throw Err.outOfFuel
  | fuel + 1 => do
    let resolved ← match arg with
      | .tsTypeReference _ _ => resolveTypeReference ctx fuel arg scope
      | _ => pure (some (arg, scope))
    match resolved with
    | none => pure none
    | some (r, _) =>
      match r with
      | .tsFunctionType rt => pure rt
      | .tsTypeAliasDeclaration _ ta => resolveReturnType ctx fuel ta scope tp
      | _ => pure none
  termination_by structural fuel

/-- `resolveExtractPropTypes`: map every property through
`reverseInferType` on its type annotation; a props-map value without a
type annotation (or an `undefined` entry) raises a `TypeError` at
`raw.typeAnnotation!.typeAnnotation` / `raw.key`. -/
def resolveExtractPropTypes (ctx : Ctx) (fuel : Nat) (elems : ResolvedElements)
    (scope : TypeScope) : M ResolvedElements :=
  match fuel with
  | 0 => throw Err.outOfFuel
  | fuel + 1 => do
    let props ← elems.props.foldlM
      (fun m kv => do
        match kv.2 with
        | some (.tsPropertySignature k _ (some ta)) => do
          let p ← reverseInferType ctx fuel k ta scope true true
          pure (objSet m kv.1 (some p))
        | _ => throw Err.jsTypeError)
      []
    pure { props := props }

/-- `reverseInferType`: recover a prop's declared type from runtime-props
syntax (`{ type: …, required: … }` objects, `XXXConstructor` references,
`PropType<…>`), falling back to a `null`-typed property. -/
def reverseInferType (ctx : Ctx) (fuel : Nat) (key : Option String) (node : Node)
    (scope : TypeScope) (optional checkObjectSyntax : Bool) : M Node :=
  match fuel with
  | 0 => throw Err.outOfFuel
  | fuel + 1 =>
    match node, checkObjectSyntax with
    | .tsTypeLiteral members, true =>
      (match findStaticPropertyType members "type" with
      | some typeType =>
        let requiredType := findStaticPropertyType members "required"
        let optional := match requiredType with
          | some (.tsLiteralType (.boolLit b)) => !b
          | _ => true
        reverseInferType ctx fuel key typeType scope optional false
      | none => reverseInferTypeRest ctx fuel key node scope optional)
    | .tsTypeReference name typeArgs, false =>
      if jsEndsWith name "Constructor" then
        pure (createProperty key (some (ctorToType name)) optional)
      else if name == "PropType" && typeArgs.isSome then
        pure (createProperty key ((typeArgs.getD []).get? 0) optional)
      else reverseInferTypeRest ctx fuel key node scope optional
    | _, _ => reverseInferTypeRest ctx fuel key node scope optional
  termination_by structural fuel

/-- The trailing part of `reverseInferType`: try the type arguments of a
reference (`Foo.Bar<XXXConstructor>`), else a `null`-typed property. -/
def reverseInferTypeRest (ctx : Ctx) (fuel : Nat) (key : Option String) (node : Node)
    (scope : TypeScope) (optional : Bool) : M Node :=
  match fuel with
  | 0 => throw Err.outOfFuel
  | fuel + 1 =>
    match node with
    | .tsTypeReference _ (some (p :: _)) =>
      -- `reverseInferType` always returns a (truthy) property, so the first
      -- type argument wins
      reverseInferType ctx fuel key p scope optional true
    | _ => pure (createProperty key (some .tsNullKeyword) optional)
  termination_by structural fuel

/-- `resolveTypeReference` (its `_resolvedReference` memo cache is
omitted). -/
def resolveTypeReference (ctx : Ctx) (fuel : Nat) (node : Node) (scope : TypeScope) :
    M (Option (Node × TypeScope)) :=
  match fuel with
  | 0 => throw Err.outOfFuel
  | fuel + 1 => innerResolveTypeReference ctx fuel scope (getReferenceName node) node false

/-- `innerResolveTypeReference` for single-part names: imports first, then
the (exported) type table. The modelled context registers no
`globalTypeFiles`, so the global fallback yields nothing; qualified
(namespace) names and `TSTypeQuery` declare-tables are outside the
sub-language. -/
def innerResolveTypeReference (ctx : Ctx) (fuel : Nat) (scope : TypeScope) (name : String)
    (node : Node) (onlyExported : Bool) : M (Option (Node × TypeScope)) :=
  match fuel with
  | 0 => throw Err.outOfFuel
  | fuel + 1 =>
    match lookupAssoc scope.imports name with
    | some _ => resolveTypeFromImport ctx fuel node name scope
    | none =>
      match lookupAssoc (if onlyExported then scope.exportedTypes else scope.types) name with
      | some n => pure (some (n, scope))
      | none => pure none
  termination_by structural fuel

/-- `resolveTypeFromImport`: load the imported file's scope and resolve the
imported name against its exported types. -/
def resolveTypeFromImport (ctx : Ctx) (fuel : Nat) (node : Node) (name : String)
    (scope : TypeScope) : M (Option (Node × TypeScope)) :=
  match fuel with
  | 0 => throw Err.outOfFuel
  | fuel + 1 =>
    match lookupAssoc scope.imports name with
    | none => throw Err.jsTypeError   -- unreachable: guarded by the caller
    | some imp => do
      let sourceScope ← importSourceToScope ctx node scope imp.source
      innerResolveTypeReference ctx fuel sourceScope imp.imported node true
  termination_by structural fuel

/-- `inferRuntimeType`: the guarded entry. The whole case analysis runs in
`try { … } catch { }` followed by `return [UNKNOWN_TYPE]`; every failure —
including stack exhaustion, a catchable `RangeError` — degrades to the
Unknown tag. -/
def inferRuntimeType (ctx : Ctx) (fuel : Nat) (node : Node) (scope : TypeScope)
    (isKeyOf : Bool) (tp : Option (List (String × Node))) : List String :=
  match fuel with
  | 0 => [UNKNOWN_TYPE]
  | fuel + 1 =>
    match inferRuntimeTypeBody ctx fuel node scope isKeyOf tp with
    | .ok ts => ts
    | .error _ => [UNKNOWN_TYPE]
  termination_by structural fuel

/-- The case analysis inside `inferRuntimeType`'s `try`. A `break` out of
the `switch` reaches the trailing `return [UNKNOWN_TYPE]` and is modelled
by returning it directly; recursive inference goes through the guarded
entry, exactly as in the source. -/
def inferRuntimeTypeBody (ctx : Ctx) (fuel : Nat) (node : Node) (scope : TypeScope)
    (isKeyOf : Bool) (tp : Option (List (String × Node))) : M (List String) :=
  match fuel with
  | 0 => throw Err.outOfFuel
  | fuel + 1 =>
    match node with
    | .tsStringKeyword => pure ["String"]
    | .tsNumberKeyword => pure ["Number"]
    | .tsBooleanKeyword => pure ["Boolean"]
    | .tsObjectKeyword => pure ["Object"]
    | .tsNullKeyword => pure ["null"]
    | .tsUndefinedKeyword => pure ["null"]
    | .tsVoidKeyword => pure ["null"]
    | .tsTypeAliasDeclaration _ ta =>
      pure (inferRuntimeType ctx fuel ta scope isKeyOf tp)
    | .tsTypeLiteral members =>
      -- under `keyof`, numeric-literal member keys and index signatures are
      -- outside the sub-language: each member contributes 'String'
      let types := members.foldl
        (fun (acc : List String) m =>
          let tag := if isKeyOf then "String"
            else match m with
              | .tsCallSignatureDeclaration => "Function"
              | _ => "Object"
          if acc.contains tag then acc else acc ++ [tag])
        []
      pure (if types.isEmpty then [if isKeyOf then UNKNOWN_TYPE else "Object"] else types)
    | .tsPropertySignature _ _ ta =>
      match ta with
      | some t => pure (inferRuntimeType ctx fuel t scope false none)
      | none => pure [UNKNOWN_TYPE]
    | .tsMethodSignature _ _ => pure ["Function"]
    | .tsFunctionType _ => pure ["Function"]
    | .tsLiteralType l =>
      match l with
      | .strLit _ => pure ["String"]
      | .boolLit _ => pure ["Boolean"]
      | .numLit _ => pure ["Number"]
      | _ => pure [UNKNOWN_TYPE]
    | .tsTypeReference name typeArgs => do
      let resolved ← resolveTypeReference ctx fuel node scope
      match resolved with
      | some (r, rscope) =>
        match r with
        | .tsTypeAliasDeclaration _ ta =>
          -- #13240: a bare function-type alias infers as Function
          match ta with
          | .tsFunctionType _ => pure ["Function"]
          | _ =>
            match typeArgs with
            | some _ =>
              -- a fresh empty typeParams record: the resolved alias carries
              -- no type parameters in the sub-language
              pure (inferRuntimeType ctx fuel ta rscope isKeyOf (some []))
            | none => pure (inferRuntimeType ctx fuel r rscope isKeyOf none)
        | _ => pure (inferRuntimeType ctx fuel r rscope isKeyOf none)
      | none =>
        match tpGet tp name with
        | some bound => pure (inferRuntimeType ctx fuel bound scope isKeyOf tp)
        | none =>
          if isKeyOf then
            if ["String", "Array", "ArrayLike", "Parameters", "ConstructorParameters",
                "ReadonlyArray"].contains name then
              pure ["String", "Number"]
            else if ["Record", "Partial", "Required", "Readonly"].contains name then
              match typeArgs.bind fun l => l.get? 0 with
              | some p => pure (inferRuntimeType ctx fuel p scope true none)
              | none => pure [UNKNOWN_TYPE]
            else if ["Pick", "Extract"].contains name then
              match typeArgs.bind fun l => l.get? 1 with
              | some p => pure (inferRuntimeType ctx fuel p scope false none)
              | none => pure [UNKNOWN_TYPE]
            else if ["Function", "Object", "Set", "Map", "WeakSet", "WeakMap", "Date",
                "Promise", "Error", "Uppercase", "Lowercase", "Capitalize",
                "Uncapitalize", "ReadonlyMap", "ReadonlySet"].contains name then
              pure ["String"]
            else pure [UNKNOWN_TYPE]
          else
            if ["Array", "Function", "Object", "Set", "Map", "WeakSet", "WeakMap",
                "Date", "Promise", "Error"].contains name then
              pure [name]
            else if ["Partial", "Required", "Readonly", "Record", "Pick", "Omit",
                "InstanceType"].contains name then
              pure ["Object"]
            else if ["Uppercase", "Lowercase", "Capitalize", "Uncapitalize"].contains name then
              pure ["String"]
            else if ["Parameters", "ConstructorParameters", "ReadonlyArray"].contains name then
              pure ["Array"]
            else if name == "ReadonlyMap" then pure ["Map"]
            else if name == "ReadonlySet" then pure ["Set"]
            else if name == "NonNullable" then
              match typeArgs.bind fun l => l.get? 0 with
              | some p =>
                pure ((inferRuntimeType ctx fuel p scope false none).filter fun s => s != "null")
              | none => pure [UNKNOWN_TYPE]
            else if name == "Extract" then
              match typeArgs.bind fun l => l.get? 1 with
              | some p => pure (inferRuntimeType ctx fuel p scope false none)
              | none => pure [UNKNOWN_TYPE]
            else if name == "Exclude" || name == "OmitThisParameter" then
              match typeArgs.bind fun l => l.get? 0 with
              | some p => pure (inferRuntimeType ctx fuel p scope false none)
              | none => pure [UNKNOWN_TYPE]
            else pure [UNKNOWN_TYPE]
    | .tsUnionType types =>
      pure (flattenTypes ctx fuel types scope isKeyOf tp)
    | .tsIntersectionType types =>
      pure ((flattenTypes ctx fuel types scope isKeyOf tp).filter fun t => t != UNKNOWN_TYPE)
    | .tsIndexedAccessType objectType indexType => do
      let types ← resolveIndexType ctx fuel objectType indexType scope tp
      pure (flattenTypes ctx fuel types scope isKeyOf tp)
    | .tsSymbolKeyword => pure ["Symbol"]
    | .tsAnyKeyword =>
      if isKeyOf then pure ["String", "Number", "Symbol"] else pure [UNKNOWN_TYPE]
    | _ => pure [UNKNOWN_TYPE]
  termination_by structural fuel

/-- `flattenTypes`: a singleton list infers directly; otherwise the
deduplicated concatenation of the member inferences. -/
def flattenTypes (ctx : Ctx) (fuel : Nat) (types : List Node) (scope : TypeScope)
    (isKeyOf : Bool) (tp : Option (List (String × Node))) : List String :=
  match fuel with
  | 0 => [UNKNOWN_TYPE]
  | fuel + 1 =>
    match types with
    | [t] => inferRuntimeType ctx fuel t scope isKeyOf tp
    | _ => dedup (types.foldl
        (fun acc t => acc ++ inferRuntimeType ctx fuel t scope isKeyOf tp) [])
  termination_by structural fuel

end

end ResolveType

namespace OxcResolveType

/-! ### The oxc-AST based engine (`oxcResolveTypesResolveType.ts`)

The second implementation shipped by the repository. Its cycle set `seen`
is a JavaScript `Set` shared by reference across recursive calls, so it is
threaded in and out of every function here (`SM` results pair the value
with the updated set). Generic bindings are a persistent `Map`, copied on
layering. -/

/-- `ResolveTypeImportBinding` (the `local` field is named `localName`). -/
structure ImportBinding where
  localName : String
  imported : String
  source : String
  isType : Bool := false
deriving Repr, DecidableEq

/-- `ResolveTypeExportBinding`: `collectTypeScope` always records a local
name for `kind: 'local'` and a source plus imported name for
`kind: 'reexport'`. -/
inductive ExportBinding where
  | localExport (localName : String)
  | reexport (source : String) (imported : String)
deriving Repr, DecidableEq

/-- The per-file `TypeScope` built by `collectTypeScope` (the `source` and
`program` fields are carried only for error excerpts and are omitted). -/
structure TypeScope where
  filename : String
  declarations : List (String × Node) := []
  imports : List (String × ImportBinding) := []
  exports : List (String × ExportBinding) := []
  exportAllSources : List String := []

/-- `GenericBindings`: a persistent `Map` from type-parameter name to the
substituted node. -/
abbrev GenericBindings := List (String × Node)

/-- `ResolvedTypeReference`. -/
structure ResolvedTypeReference where
  node : Node
  scope : TypeScope
  genericBindings : GenericBindings

/-- A property of `TypeElements` (the `node`, `scope` and
`genericBindings` fields carried for lazy resolution are omitted). -/
structure TypeElementProperty where
  key : String
  optional : Bool
  typeNode : Node

/-- `TypeElements`. -/
structure TypeElements where
  props : List (String × TypeElementProperty) := []
  calls : List Node := []

/-- The cycle set. Every function below returns its result paired with
the updated set (the source shares one mutable `Set` by reference). -/
abbrev Seen := List String

/-- `seen.add k`. -/
def seenAdd (seen : Seen) (k : String) : Seen :=
  if seen.contains k then seen else seen ++ [k]

/-- The resolution context: `fileExists` is the injected filesystem
capability; `scopes` stands for `ensureTypeScope`'s cache plus the
external parser and `collectTypeScope` (a `none` result models a file that
cannot be read or parsed, both fatal); `registeredTS` models the
`registerTS` singleton composed with `resolveModuleByTs` (tsconfig-less
`ts.resolveModuleName`, an external collaborator). -/
structure Ctx where
  filename : String
  fileExists : String → Bool := fun _ => false
  scopes : String → Option TypeScope := fun _ => none
  registeredTS : Option (String → String → Option String) := none

/-- Modelled from the spec: `isRelativeImport` lives in the missing
`oxcResolveTypesUtils.ts`; §4.2 distinguishes relative sources (starting
with a dot) from bare ones. -/
def isRelativeImport (source : String) : Bool :=
  jsStartsWith source "."

/-- Modelled from the spec: `resolveRelativeImportCandidates` lives in the
missing `oxcResolveTypesUtils.ts`; §4.2 — "Relative import sources are
turned into absolute-path candidates by probing a fixed ordered list of
extension/ index-file variants; the first candidate that exists … wins." -/
def resolveRelativeImportCandidates (importerFilename source : String) : List String :=
  let base := ResolveType.joinPath (ResolveType.dirnameOf importerFilename) source
  [base, base ++ ".ts", base ++ ".tsx", base ++ ".d.ts",
   ResolveType.joinPath base "index.ts", ResolveType.joinPath base "index.d.ts"]

/-- `ensureTypeScope`: the scope cache plus read/parse/collect pipeline;
an unreadable or unparsable file is a fatal error (the two distinct
`ctx.error` messages are collapsed into one constructor). `normalizePath`
is the identity on the embedded POSIX paths. -/
def ensureTypeScope (ctx : Ctx) (filename : String) : M TypeScope :=
  match ctx.scopes filename with
  | some s => pure s
  | none => throw (Err.cannotResolveModule filename)

/-- `resolveModuleByTs`: `getRegisteredTS()` and, when registered, the
TypeScript `resolveModuleName` pipeline (external collaborator). -/
def resolveModuleByTs (ctx : Ctx) (importerFilename source : String) : Option String :=
  ctx.registeredTS.bind fun r => r importerFilename source

/-- `resolveImportedScope`: an empty source yields nothing; a relative
source probes the candidate list; otherwise (or when no candidate exists)
TypeScript resolution is attempted; a bare source that remains unresolved
is the fatal `Cannot resolve module …, call registerTS(ts) first` error,
while an unresolved relative source degrades to nothing. -/
def resolveImportedScope (ctx : Ctx) (importerFilename source : String) :
    M (Option TypeScope) := do
  if source.data.isEmpty then return none
  else do
    let viaRelative ←
      if isRelativeImport source then
        match (resolveRelativeImportCandidates importerFilename source).find?
            (fun c => ctx.fileExists c) with
        | some matched => do
          let s ← ensureTypeScope ctx matched
          pure (some s)
        | none => pure none
      else pure none
    match viaRelative with
    | some s => pure (some s)
    | none =>
      match resolveModuleByTs ctx importerFilename source with
      | some resolved => do
        let s ← ensureTypeScope ctx resolved
        pure (some s)
      | none =>
        if !isRelativeImport source then throw (Err.cannotResolveModule source)
        else pure none

/-- `createDeclarationGenericBindings`: declarations of the sub-language
carry no type-parameter list, so the inherited bindings are returned
unchanged (with parameters the source layers a fresh copy binding each
parameter from the reference arguments, defaults or constraints). -/
def createDeclarationGenericBindings (_declaration : Node)
    (_referenceTypeArguments : Option (List Node)) (inherited : GenericBindings) :
    GenericBindings :=
  inherited

/-- `applyReferenceTypeArguments`. -/
def applyReferenceTypeArguments (resolved : Option ResolvedTypeReference)
    (referenceTypeArguments : Option (List Node)) (inherited : GenericBindings) :
    Option ResolvedTypeReference :=
  resolved.map fun r =>
    { r with genericBindings :=
        createDeclarationGenericBindings r.node referenceTypeArguments inherited }

/-- `getLiteralValue`: only `TSLiteralType` wrapping a string or numeric
literal yields a value (a boolean literal fails the `typeof` check;
template literals are outside the sub-language). -/
def getLiteralValue : Node → Option String
  | .tsLiteralType l =>
    match l with
    | .strLit s => some s
    | .numLit n => some (toString n)
    | _ => none
  | _ => none

/-- `!Number.isNaN(Number(s)) && s.trim() !== ''` for the decimal fragment
of JavaScript number syntax (optional sign, digits, at most one decimal
point). The embedded literal values are produced by `String(value)` on
string or numeric literals, which never produces the exotic forms (hex,
exponents, `Infinity`). -/
def jsNumericString (s : String) : Bool :=
  let t := jsTrimData s.data
  if t.isEmpty then false
  else
    let t := match t with
      | c :: rest => if c == '-' || c == '+' then rest else t
      | [] => t
    !t.isEmpty && t.all (fun c => c.isDigit || c == '.')
      && (t.filter (fun c => c == '.')).length ≤ 1
      && t.any Char.isDigit

/-- `RUNTIME_REFERENCE_TYPES`. -/
def RUNTIME_REFERENCE_TYPES : List (String × String) :=
  [("String", "String"), ("Number", "Number"), ("Boolean", "Boolean"),
   ("Object", "Object"), ("Function", "Function"), ("Array", "Array"),
   ("Date", "Date")]

/-- `resolveTypeLiteralMembers`: property and method signatures with a
statically known key become `TypeElementProperty` entries (a computed key
is skipped, not an error); call signatures are collected. A missing
property type annotation records a `TSUnknownKeyword` node; a method's
synthesized `TSFunctionType` keeps no parameter data in the
sub-language. -/
def resolveTypeLiteralMembers (members : List Node) : TypeElements :=
  members.foldl
    (fun result member =>
      match member with
      | .tsPropertySignature key opt ta =>
        match key with
        | none => result
        | some k =>
          let p : TypeElementProperty := ⟨k, opt, ta.getD (.otherNode "TSUnknownKeyword")⟩
          { result with props := objSetA result.props k p }
      | .tsMethodSignature key opt =>
        match key with
        | none => result
        | some k =>
          { result with props := objSetA result.props k ⟨k, opt, .tsFunctionType none⟩ }
      | .tsCallSignatureDeclaration =>
        { result with calls := result.calls ++ [member] }
      | _ => result)
    {}

/-- One step of `mergeTypeElements`' property loop: a fresh key is
assigned; a key already present keeps the source property with the AND of
the two optionalities. -/
def mtStep (tprops : List (String × TypeElementProperty))
    (kv : String × TypeElementProperty) : List (String × TypeElementProperty) :=
  match lookupAssoc tprops kv.1 with
  | none => objSetA tprops kv.1 kv.2
  | some existing =>
    objSetA tprops kv.1 { kv.2 with optional := existing.optional && kv.2.optional }

/-- `mergeTypeElements`: merge `source` into `target`; a key present in
both keeps the source property with the AND of the two optionalities;
calls are appended. -/
def mergeTypeElements (target source : TypeElements) : TypeElements :=
  { props := source.props.foldl mtStep target.props,
    calls := target.calls ++ source.calls }

mutual

/-- `resolveTypeElementsInScope`. The sub-language has no annotation or
parenthesis wrapper nodes, so `unwrapTypeNode` is the identity and a
missing node cannot occur; interface declarations are likewise outside the
sub-language. A union yields the empty element set; an unresolvable
reference yields the empty element set. -/
def resolveTypeElementsInScope (ctx : Ctx) (fuel : Nat) (node : Node) (scope : TypeScope)
    (seen : Seen) (genericBindings : GenericBindings) : M (TypeElements × Seen) :=
  match fuel with
  | 0 => throw Err.outOfFuel
  | fuel + 1 =>
    match node with
    | .tsTypeAliasDeclaration _ ta =>
      let nextBindings := createDeclarationGenericBindings node none genericBindings
      resolveTypeElementsInScope ctx fuel ta scope seen nextBindings
    | .tsTypeLiteral members => pure (resolveTypeLiteralMembers members, seen)
    | .tsIntersectionType types =>
      types.foldlM
        (fun (acc : TypeElements × Seen) part => do
          let (partElements, seen') ←
            resolveTypeElementsInScope ctx fuel part scope acc.2 genericBindings
          pure (mergeTypeElements acc.1 partElements, seen'))
        ({}, seen)
    | .tsUnionType _ => pure ({}, seen)
    | .tsTypeReference _ _ => do
      let (utility, seen) ← resolveUtilityTypeElements ctx fuel node scope seen genericBindings
      match utility with
      | some u => pure (u, seen)
      | none => do
        let (resolved, seen) ← resolveTypeReference ctx fuel node scope seen genericBindings
        match resolved with
        | none => pure ({}, seen)
        | some r => resolveTypeElementsInScope ctx fuel r.node r.scope seen r.genericBindings
    | _ => pure ({}, seen)
  termination_by structural fuel

/-- `resolveUtilityTypeElements`: the oxc engine's utility catalogue
(`Partial`/`Required`/`Readonly`/`Pick`/`Omit`/`Record`); anything else
yields nothing. The source mutates the resolved descriptors' `optional`
flags in place; the descriptors are fresh per call, so a functional update
is equivalent. -/
def resolveUtilityTypeElements (ctx : Ctx) (fuel : Nat) (reference : Node)
    (scope : TypeScope) (seen : Seen) (genericBindings : GenericBindings) :
    M (Option TypeElements × Seen) :=
  match fuel with
  | 0 => throw Err.outOfFuel
  | fuel + 1 =>
    match reference with
    | .tsTypeReference utilityName typeArgs =>
      let args := typeArgs.getD []
      if utilityName == "Partial" then
        match args.get? 0 with
        | some a0 => do
          let (resolved, seen) ← resolveTypeElementsInScope ctx fuel a0 scope seen genericBindings
          pure (some { resolved with
            props := resolved.props.map fun kv => (kv.1, { kv.2 with optional := true }) }, seen)
        | none => pure (none, seen)
      else if utilityName == "Required" then
        match args.get? 0 with
        | some a0 => do
          let (resolved, seen) ← resolveTypeElementsInScope ctx fuel a0 scope seen genericBindings
          pure (some { resolved with
            props := resolved.props.map fun kv => (kv.1, { kv.2 with optional := false }) }, seen)
        | none => pure (none, seen)
      else if utilityName == "Readonly" then
        match args.get? 0 with
        | some a0 => do
          let (resolved, seen) ← resolveTypeElementsInScope ctx fuel a0 scope seen genericBindings
          pure (some resolved, seen)
        | none => pure (none, seen)
      else if utilityName == "Pick" then
        match args.get? 0, args.get? 1 with
        | some a0, some a1 => do
          let (resolved, seen) ← resolveTypeElementsInScope ctx fuel a0 scope seen genericBindings
          let (picked, seen) ← resolveStringLiteralUnion ctx fuel a1 scope seen genericBindings
          let filtered := resolved.props.filter fun kv => picked.contains kv.1
          pure (some { props := filtered, calls := resolved.calls }, seen)
        | _, _ => pure (none, seen)
      else if utilityName == "Omit" then
        match args.get? 0, args.get? 1 with
        | some a0, some a1 => do
          let (resolved, seen) ← resolveTypeElementsInScope ctx fuel a0 scope seen genericBindings
          let (omitted, seen) ← resolveStringLiteralUnion ctx fuel a1 scope seen genericBindings
          let filtered := resolved.props.filter fun kv => !omitted.contains kv.1
          pure (some { props := filtered, calls := resolved.calls }, seen)
        | _, _ => pure (none, seen)
      else if utilityName == "Record" then
        match args.get? 0, args.get? 1 with
        | some a0, some a1 => do
          let (keys, seen) ← resolveStringLiteralUnion ctx fuel a0 scope seen genericBindings
          let props := keys.foldl (fun m key => objSetA m key ⟨key, false, a1⟩) []
          pure (some { props := props, calls := [] }, seen)
        | _, _ => pure (none, seen)
      else pure (none, seen)
    | _ => pure (none, seen)
  termination_by structural fuel

/-- `resolveTypeReference` (oxc): generic bindings shadow everything;
otherwise single-part names go through `resolveNamedTypeReference` and the
reference's type arguments are layered onto the result. Qualified
namespace names are outside the sub-language. -/
def resolveTypeReference (ctx : Ctx) (fuel : Nat) (reference : Node) (scope : TypeScope)
    (seen : Seen) (genericBindings : GenericBindings) : M (Option ResolvedTypeReference × Seen) :=
  match fuel with
  | 0 => throw Err.outOfFuel
  | fuel + 1 =>
    match reference with
    | .tsTypeReference name typeArgs =>
      match lookupAssoc genericBindings name with
      | some bound => pure (some ⟨bound, scope, genericBindings⟩, seen)
      | none => do
        let (resolved, seen) ← resolveNamedTypeReference ctx fuel name scope seen
        pure (applyReferenceTypeArguments resolved typeArgs genericBindings, seen)
    | _ => pure (none, seen)

/-- `resolveNamedTypeReference`: the cycle check — a
`(scope filename, name)` pair already on the in-progress set resolves to
nothing; otherwise the pair is added and local declarations, imports
(through the imported file's exports) and locally-exported declarations
are tried in order. -/
def resolveNamedTypeReference (ctx : Ctx) (fuel : Nat) (name : String) (scope : TypeScope)
    (seen : Seen) : M (Option ResolvedTypeReference × Seen) :=
  match fuel with
  | 0 => throw Err.outOfFuel
  | fuel + 1 =>
    let cycleKey := scope.filename ++ "::" ++ name
    if seen.contains cycleKey then pure (none, seen)
    else
      let seen := seenAdd seen cycleKey
      match lookupAssoc scope.declarations name with
      | some localDecl => pure (some ⟨localDecl, scope, []⟩, seen)
      | none =>
        match lookupAssoc scope.imports name with
        | some imported => do
          let importedScope ← resolveImportedScope ctx scope.filename imported.source
          match importedScope with
          | none => throw (Err.cannotResolveImportedType name)
          | some iscope =>
            if imported.imported == "*" then pure (none, seen)
            else resolveExportedTypeReference ctx fuel iscope imported.imported seen
        | none =>
          match lookupAssoc scope.exports name with
          | some (.localExport localName) =>
            match lookupAssoc scope.declarations localName with
            | some declared => pure (some ⟨declared, scope, []⟩, seen)
            | none => pure (none, seen)
          | _ => pure (none, seen)

/-- `resolveExportedTypeReference`: its own cycle key (`::export::`),
then the direct export binding (local declaration, import chase or
re-export chase), falling back to a bare declaration and the export-all
sources. -/
def resolveExportedTypeReference (ctx : Ctx) (fuel : Nat) (scope : TypeScope)
    (exportName : String) (seen : Seen) : M (Option ResolvedTypeReference × Seen) :=
  match fuel with
  | 0 => throw Err.outOfFuel
  | fuel + 1 =>
    let cycleKey := scope.filename ++ "::export::" ++ exportName
    if seen.contains cycleKey then pure (none, seen)
    else
      let seen := seenAdd seen cycleKey
      match lookupAssoc scope.exports exportName with
      | some (.localExport localName) =>
        (match lookupAssoc scope.declarations localName with
        | some localDecl => pure (some ⟨localDecl, scope, []⟩, seen)
        | none =>
          match lookupAssoc scope.imports localName with
          | some importedBinding => do
            let importedScope ← resolveImportedScope ctx scope.filename importedBinding.source
            match importedScope with
            | some iscope =>
              if importedBinding.imported != "*" then
                resolveExportedTypeReference ctx fuel iscope importedBinding.imported seen
              else exportedReferenceFallback ctx fuel scope exportName seen
            | none => exportedReferenceFallback ctx fuel scope exportName seen
          | none => exportedReferenceFallback ctx fuel scope exportName seen)
      | some (.reexport source imported) => do
        let importedScope ← resolveImportedScope ctx scope.filename source
        match importedScope with
        | some iscope => resolveExportedTypeReference ctx fuel iscope imported seen
        | none => exportedReferenceFallback ctx fuel scope exportName seen
      | none => exportedReferenceFallback ctx fuel scope exportName seen
  termination_by structural fuel

/-- The trailing part of `resolveExportedTypeReference`: the bare
declaration fallback for declaration-only files, then the export-all
sources in order. -/
def exportedReferenceFallback (ctx : Ctx) (fuel : Nat) (scope : TypeScope)
    (exportName : String) (seen : Seen) : M (Option ResolvedTypeReference × Seen) :=
  match fuel with
  | 0 => throw Err.outOfFuel
  | fuel + 1 =>
    match lookupAssoc scope.declarations exportName with
    | some declaration => pure (some ⟨declaration, scope, []⟩, seen)
    | none => exportAllLoop ctx fuel scope.exportAllSources scope exportName seen
  termination_by structural fuel

/-- The `for (const exportAllSource of scope.exportAllSources)` loop, with
the shared cycle set threaded across iterations. -/
def exportAllLoop (ctx : Ctx) (fuel : Nat) (sources : List String) (scope : TypeScope)
    (exportName : String) (seen : Seen) : M (Option ResolvedTypeReference × Seen) :=
  match fuel with
  | 0 => throw Err.outOfFuel
  | fuel + 1 =>
    match sources with
    | [] => pure (none, seen)
    | src :: rest => do
      let importedScope ← resolveImportedScope ctx scope.filename src
      match importedScope with
      | none => exportAllLoop ctx fuel rest scope exportName seen
      | some iscope => do
        let (resolved, seen) ← resolveExportedTypeReference ctx fuel iscope exportName seen
        match resolved with
        | some r => pure (some r, seen)
        | none => exportAllLoop ctx fuel rest scope exportName seen
  termination_by structural fuel

/-- `resolveUnionTypeInScope`: flatten a union, chasing generic bindings,
references and aliases; an unresolvable leaf is returned as itself. -/
def resolveUnionTypeInScope (ctx : Ctx) (fuel : Nat) (node : Node) (scope : TypeScope)
    (seen : Seen) (genericBindings : GenericBindings) : M (List Node × Seen) :=
  match fuel with
  | 0 => throw Err.outOfFuel
  | fuel + 1 =>
    match node with
    | .tsUnionType types => unionFlatLoop ctx fuel types scope seen genericBindings
    | .tsTypeReference name _ =>
      (match lookupAssoc genericBindings name with
      | some bound => resolveUnionTypeInScope ctx fuel bound scope seen genericBindings
      | none => do
        let (resolved, seen) ← resolveTypeReference ctx fuel node scope seen genericBindings
        match resolved with
        | some r => resolveUnionTypeInScope ctx fuel r.node r.scope seen r.genericBindings
        | none => pure ([node], seen))
    | .tsTypeAliasDeclaration _ ta =>
      let nextBindings := createDeclarationGenericBindings node none genericBindings
      resolveUnionTypeInScope ctx fuel ta scope seen nextBindings
    | _ => pure ([node], seen)
  termination_by structural fuel

/-- The `flatMap` of `resolveUnionTypeInScope` over union members, with
the shared cycle set threaded across iterations. -/
def unionFlatLoop (ctx : Ctx) (fuel : Nat) (types : List Node) (scope : TypeScope)
    (seen : Seen) (genericBindings : GenericBindings) : M (List Node × Seen) :=
  match fuel with
  | 0 => throw Err.outOfFuel
  | fuel + 1 =>
    match types with
    | [] => pure ([], seen)
    | t :: rest => do
      let (xs, seen) ← resolveUnionTypeInScope ctx fuel t scope seen genericBindings
      let (ys, seen) ← unionFlatLoop ctx fuel rest scope seen genericBindings
      pure (xs ++ ys, seen)
  termination_by structural fuel

/-- `resolveStringLiteralUnion`: the deduplicated string values of the
flattened union's literal members. -/
def resolveStringLiteralUnion (ctx : Ctx) (fuel : Nat) (node : Node) (scope : TypeScope)
    (seen : Seen) (genericBindings : GenericBindings) : M (List String × Seen) :=
  match fuel with
  | 0 => throw Err.outOfFuel
  | fuel + 1 => do
    let (nodes, seen) ← resolveUnionTypeInScope ctx fuel node scope seen genericBindings
    pure (dedup (nodes.filterMap getLiteralValue), seen)

/-- `inferRuntimeTypeInScope`: the oxc runtime-tag inferencer.
`null`/`undefined`/`void`/`never` all map to the `null` tag; an
intersection whose deduplicated concatenation has more than one tag and
contains `Object` collapses to `Object`; an unresolvable reference is the
Unknown tag. -/
def inferRuntimeTypeInScope (ctx : Ctx) (fuel : Nat) (node : Node) (scope : TypeScope)
    (seen : Seen) (genericBindings : GenericBindings) : M (List String × Seen) :=
  match fuel with
  | 0 => throw Err.outOfFuel
  | fuel + 1 =>
    match node with
    | .tsStringKeyword => pure (["String"], seen)
    | .tsNumberKeyword => pure (["Number"], seen)
    | .tsBooleanKeyword => pure (["Boolean"], seen)
    | .tsObjectKeyword => pure (["Object"], seen)
    | .tsTypeLiteral _ => pure (["Object"], seen)
    | .tsFunctionType _ => pure (["Function"], seen)
    | .tsNullKeyword => pure (["null"], seen)
    | .tsUndefinedKeyword => pure (["null"], seen)
    | .tsVoidKeyword => pure (["null"], seen)
    | .tsNeverKeyword => pure (["null"], seen)
    | .tsLiteralType _ =>
      (match getLiteralValue node with
      | none => pure ([UNKNOWN_TYPE], seen)
      | some v =>
        if jsNumericString v then pure (["Number"], seen) else pure (["String"], seen))
    | .tsUnionType types => do
      let (tags, seen) ← inferFlatLoop ctx fuel types scope seen genericBindings
      pure (dedup tags, seen)
    | .tsIntersectionType types => do
      let (tags, seen) ← inferFlatLoop ctx fuel types scope seen genericBindings
      let merged := dedup tags
      if merged.length > 1 && merged.contains "Object" then pure (["Object"], seen)
      else pure (merged, seen)
    | .tsTypeAliasDeclaration _ ta =>
      inferRuntimeTypeInScope ctx fuel ta scope seen
        (createDeclarationGenericBindings node none genericBindings)
    | .tsTypeReference name _ =>
      (match lookupAssoc genericBindings name with
      | some bound => inferRuntimeTypeInScope ctx fuel bound scope seen genericBindings
      | none =>
        match lookupAssoc RUNTIME_REFERENCE_TYPES name with
        | some mapped => pure ([mapped], seen)
        | none => do
          let (resolved, seen) ← resolveTypeReference ctx fuel node scope seen genericBindings
          match resolved with
          | some r => inferRuntimeTypeInScope ctx fuel r.node r.scope seen r.genericBindings
          | none => pure ([UNKNOWN_TYPE], seen))
    | _ => pure ([UNKNOWN_TYPE], seen)
  termination_by structural fuel

/-- The `flatMap` of `inferRuntimeTypeInScope` over union/intersection
members, with the shared cycle set threaded across iterations. -/
def inferFlatLoop (ctx : Ctx) (fuel : Nat) (types : List Node) (scope : TypeScope)
    (seen : Seen) (genericBindings : GenericBindings) : M (List String × Seen) :=
  match fuel with
  | 0 => throw Err.outOfFuel
  | fuel + 1 =>
    match types with
    | [] => pure ([], seen)
    | t :: rest => do
      let (xs, seen) ← inferRuntimeTypeInScope ctx fuel t scope seen genericBindings
      let (ys, seen) ← inferFlatLoop ctx fuel rest scope seen genericBindings
      pure (xs ++ ys, seen)
  termination_by structural fuel

end

/-- The exported `resolveTypeElements` entry: resolve in the context
file's scope with a fresh cycle set and empty bindings. -/
def resolveTypeElements (ctx : Ctx) (fuel : Nat) (node : Node) : M TypeElements := do
  let scope ← ensureTypeScope ctx ctx.filename
  let (r, _) ← resolveTypeElementsInScope ctx fuel node scope [] []
  pure r

/-- The exported `inferRuntimeType` entry. -/
def inferRuntimeType (ctx : Ctx) (fuel : Nat) (node : Node) : M (List String) := do
  let scope ← ensureTypeScope ctx ctx.filename
  let (r, _) ← inferRuntimeTypeInScope ctx fuel node scope [] []
  pure r

end OxcResolveType

/-! ### Concrete fixtures for witnesses and counterexamples -/

/-- An empty resolution context (no fs, no TypeScript registered). -/
def emptyCtx : ResolveType.Ctx := {}

/-- A scope with no declarations, imports or resolved import sources. -/
def emptyScope : ResolveType.TypeScope := { filename := "/App.vue" }

/-- `a: string` (required). -/
def propA : Node := .tsPropertySignature (some "a") false (some .tsStringKeyword)

/-- `b?: number` (optional). -/
def propB : Node := .tsPropertySignature (some "b") true (some .tsNumberKeyword)

/-- `k?: string` (optional). -/
def propKOpt : Node := .tsPropertySignature (some "k") true (some .tsStringKeyword)

/-- `k: number` (required). -/
def propKReq : Node := .tsPropertySignature (some "k") false (some .tsNumberKeyword)

/-- An oxc context for the file `/self.ts` with no filesystem and no
registered TypeScript. -/
def oxcSelfCtx : OxcResolveType.Ctx := { filename := "/self.ts" }

/-- The scope of a file declaring only the self-referential alias
`type A = A`. -/
def oxcSelfScope : OxcResolveType.TypeScope :=
  { filename := "/self.ts",
    declarations := [("A", .tsTypeAliasDeclaration "A" (.tsTypeReference "A" none))] }

/-- An oxc scope with no declarations. -/
def oxcEmptyScope : OxcResolveType.TypeScope := { filename := "/a.ts" }

/-- The scope the scope builder produces for a file `/a.ts` whose only
statement is the re-export `export { X } from './b'`: a re-export
registers an import binding for the exported name plus an exported type
reference to it. -/
def cycScopeA : ResolveType.TypeScope :=
  { filename := "/a.ts",
    imports := [("X", ⟨"./b", "X"⟩)],
    exportedTypes := [("X", .tsTypeReference "X" none)] }

/-- The scope of `/b.ts`, whose only statement is the mirror re-export
`export { X } from './a'`. -/
def cycScopeB : ResolveType.TypeScope :=
  { filename := "/b.ts",
    imports := [("X", ⟨"./a", "X"⟩)],
    exportedTypes := [("X", .tsTypeReference "X" none)] }

/-- A main-engine context on which every probed file exists and the two
re-exporting files map to their scopes. -/
def cycCtx : ResolveType.Ctx :=
  { fs := some ⟨fun _ => true⟩,
    fileToScope := fun f => if f == "/./b.ts" then cycScopeB else cycScopeA }

/-- Every reference name with a case in `inferRuntimeType`'s unresolved-
reference switches (both the `keyof` switch and the plain one); a name
outside this list falls through to the Unknown tag. -/
def inferRefSwitchNames : List String :=
  ["String", "Array", "ArrayLike", "Parameters", "ConstructorParameters", "ReadonlyArray",
   "Record", "Partial", "Required", "Readonly", "Pick", "Extract",
   "Function", "Object", "Set", "Map", "WeakSet", "WeakMap", "Date", "Promise", "Error",
   "Uppercase", "Lowercase", "Capitalize", "Uncapitalize", "ReadonlyMap", "ReadonlySet",
   "Omit", "InstanceType", "NonNullable", "Exclude", "OmitThisParameter"]

/-! ### Helper lemmas on the JS object-map model -/

theorem exceptBind_eq_ok {ε α β : Type} {x : Except ε α} {f : α → Except ε β} {b : β} :
    (x >>= f) = .ok b ↔ ∃ a, x = .ok a ∧ f a = .ok b := by
  cases x <;> simp [Bind.bind, Except.bind]

theorem objHas_append (m₁ m₂ : PropsMap) (x : String) :
    objHas (m₁ ++ m₂) x = (objHas m₁ x || objHas m₂ x) := by
  simp [objHas, List.any_append]

theorem anyKey_map_set (m : PropsMap) (k x : String) (v : Option Node) :
    ((m.map fun e => if e.1 == k then (k, v) else e).any fun e => e.1 == x)
      = (m.any fun e => e.1 == x) := by
  induction m with
  | nil => rfl
  | cons e rest ih =>
    by_cases he : e.1 == k
    · have hek : e.1 = k := eq_of_beq he
      simp only [List.map_cons, List.any_cons, he, if_true]
      rw [ih, hek]
    · simp only [List.map_cons, List.any_cons, he, Bool.false_eq_true, if_false]
      rw [ih]

theorem objHas_objSet (m : PropsMap) (k x : String) (v : Option Node) :
    objHas (objSet m k v) x = (objHas m x || k == x) := by
  unfold objSet
  by_cases h : objHas m k
  · simp only [h, if_true]
    show ((m.map fun e => if e.1 == k then (k, v) else e).any fun e => e.1 == x)
      = (objHas m x || k == x)
    rw [anyKey_map_set]
    by_cases hkx : k == x
    · have hx : k = x := eq_of_beq hkx
      subst hx
      have hany : (m.any fun e => e.1 == k) = true := h
      rw [hany]
      simp
    · simp only [hkx, Bool.or_false]
      rfl
  · simp only [h, if_false, Bool.false_eq_true]
    rw [objHas_append]
    simp [objHas]

theorem objGetEntry_isSome (m : PropsMap) (k : String) :
    (objGetEntry m k).isSome = objHas m k := by
  induction m with
  | nil => rfl
  | cons e rest ih =>
    by_cases he : e.1 == k
    · simp [objGetEntry, objHas, List.find?, he]
    · simp only [objGetEntry, objHas, List.find?, he, List.any_cons, Bool.false_or] at ih ⊢
      exact ih

theorem findEntry_map_set_self (m : PropsMap) (k : String) (v : Option Node)
    (h : (m.any fun e => e.1 == k) = true) :
    ((m.map fun e => if e.1 == k then (k, v) else e).find? fun e => e.1 == k)
      = some (k, v) := by
  induction m with
  | nil => simp at h
  | cons e rest ih =>
    by_cases he : e.1 == k
    · simp only [List.map_cons, he, if_true, List.find?]
      simp
    · simp only [List.any_cons, he, Bool.false_or] at h
      simp only [List.map_cons, he, Bool.false_eq_true, if_false, List.find?]
      exact ih h

theorem objGetEntry_objSet_self (m : PropsMap) (k : String) (v : Option Node) :
    objGetEntry (objSet m k v) k = some v := by
  unfold objSet
  by_cases h : objHas m k
  · simp only [h, if_true]
    show (((m.map fun e => if e.1 == k then (k, v) else e).find? fun e => e.1 == k).map (·.2))
      = some v
    rw [findEntry_map_set_self m k v h]
    rfl
  · simp only [h, if_false, Bool.false_eq_true]
    show (((m ++ [(k, v)]).find? fun e => e.1 == k).map (·.2)) = some v
    rw [List.find?_append]
    have hm : (m.find? fun e => e.1 == k) = none := by
      rw [List.find?_eq_none]
      intro e he hek
      have habs : objHas m k = true := by
        simp only [objHas, List.any_eq_true]
        exact ⟨e, he, hek⟩
      simp [habs] at h
    simp [hm, List.find?]

theorem findEntry_map_set_ne (m : PropsMap) (k x : String) (v : Option Node)
    (h : (k == x) = false) :
    ((m.map fun e => if e.1 == k then (k, v) else e).find? fun e => e.1 == x)
      = (m.find? fun e => e.1 == x) := by
  induction m with
  | nil => rfl
  | cons e rest ih =>
    by_cases he : e.1 == k
    · have hek : e.1 = k := eq_of_beq he
      have hex : (e.1 == x) = false := by rw [hek]; exact h
      simp only [List.map_cons, he, if_true, List.find?, h, hex, Bool.false_eq_true, if_false]
      exact ih
    · simp only [List.map_cons, he, Bool.false_eq_true, if_false, List.find?]
      by_cases hex : e.1 == x
      · simp [hex]
      · simp only [hex, Bool.false_eq_true, if_false]
        exact ih

theorem objGetEntry_objSet_ne (m : PropsMap) (k x : String) (v : Option Node)
    (h : (k == x) = false) :
    objGetEntry (objSet m k v) x = objGetEntry m x := by
  unfold objSet
  by_cases hm : objHas m k
  · simp only [hm, if_true]
    show (((m.map fun e => if e.1 == k then (k, v) else e).find? fun e => e.1 == x).map (·.2))
      = objGetEntry m x
    rw [findEntry_map_set_ne m k x v h]
    rfl
  · simp only [hm, if_false, Bool.false_eq_true]
    show (((m ++ [(k, v)]).find? fun e => e.1 == x).map (·.2)) = objGetEntry m x
    rw [List.find?_append]
    cases hfind : m.find? fun e => e.1 == x with
    | some e => simp [objGetEntry, hfind]
    | none => simp [objGetEntry, hfind, List.find?, h]

theorem objGetEntry_none_of_not_has (m : PropsMap) (k : String)
    (h : objHas m k = false) : objGetEntry m k = none := by
  have hs := objGetEntry_isSome m k
  rw [h] at hs
  exact Option.not_isSome_iff_eq_none.mp (by simp [hs])

/-! ### Helper lemmas about `mergeElements` -/

namespace ResolveType

theorem mergePropsEntry_keys (kind : MergeKind) (base : PropsMap)
    (kv : String × Option Node) (b' : PropsMap)
    (h : mergePropsEntry kind base kv = .ok b') (x : String) :
    objHas b' x = (objHas base x || kv.1 == x) := by
  unfold mergePropsEntry at h
  by_cases hhas : objHas base kv.1
  · simp only [hhas, if_true] at h
    cases hg : objGet base kv.1 with
    | none => rw [hg] at h; cases hkv : kv.2 <;> rw [hkv] at h <;> simp [throw, throwThe, MonadExceptOf.throw] at h
    | some b =>
      rw [hg] at h
      cases hkv : kv.2 with
      | none => rw [hkv] at h; simp [throw, throwThe, MonadExceptOf.throw] at h
      | some p =>
        rw [hkv] at h
        simp only [pure, Except.pure, Except.ok.injEq] at h
        subst h
        exact objHas_objSet base kv.1 x _
  · simp only [hhas, if_false, Bool.false_eq_true, pure, Except.pure, Except.ok.injEq] at h
    subst h
    exact objHas_objSet base kv.1 x _

theorem mergeProps_keys (kind : MergeKind) (props : PropsMap) :
    ∀ (base out : PropsMap), mergeProps kind base props = .ok out →
    ∀ x, objHas out x = (objHas base x || objHas props x) := by
  induction props with
  | nil =>
    intro base out h x
    simp only [mergeProps, List.foldlM_nil, pure, Except.pure, Except.ok.injEq] at h
    subst h
    simp [objHas]
  | cons kv rest ih =>
    intro base out h x
    simp only [mergeProps, List.foldlM_cons] at h
    rw [exceptBind_eq_ok] at h
    obtain ⟨b', hb', hrest⟩ := h
    have h1 := mergePropsEntry_keys kind base kv b' hb' x
    have h2 := ih b' out hrest x
    rw [h2, h1]
    simp [objHas, Bool.or_assoc]

theorem anyKey_eq_false_of_not_mem (props : PropsMap) (k : String)
    (h : k ∉ props.map (·.1)) : (props.any fun e => e.1 == k) = false := by
  cases hany : props.any fun e => e.1 == k
  · rfl
  · rw [List.any_eq_true] at hany
    obtain ⟨e, he, hek⟩ := hany
    have : e.1 = k := eq_of_beq hek
    exact absurd (this ▸ List.mem_map_of_mem (·.1) he) h

theorem mergePropsEntry_entry_ne (kind : MergeKind) (base : PropsMap)
    (kv : String × Option Node) (b' : PropsMap) (k : String)
    (hne : (kv.1 == k) = false)
    (h : mergePropsEntry kind base kv = .ok b') :
    objGetEntry b' k = objGetEntry base k := by
  unfold mergePropsEntry at h
  by_cases hhas : objHas base kv.1
  · simp only [hhas, if_true] at h
    cases hg : objGet base kv.1 with
    | none => rw [hg] at h; cases hkv : kv.2 <;> rw [hkv] at h <;> simp [throw, throwThe, MonadExceptOf.throw] at h
    | some b =>
      rw [hg] at h
      cases hkv : kv.2 with
      | none => rw [hkv] at h; simp [throw, throwThe, MonadExceptOf.throw] at h
      | some p =>
        rw [hkv] at h
        simp only [pure, Except.pure, Except.ok.injEq] at h
        subst h
        exact objGetEntry_objSet_ne base kv.1 k _ hne
  · simp only [hhas, if_false, Bool.false_eq_true, pure, Except.pure, Except.ok.injEq] at h
    subst h
    exact objGetEntry_objSet_ne base kv.1 k _ hne

theorem mergeProps_entry_preserved (kind : MergeKind) (props : PropsMap) :
    ∀ (base out : PropsMap) (k : String),
    (props.any fun e => e.1 == k) = false →
    mergeProps kind base props = .ok out →
    objGetEntry out k = objGetEntry base k := by
  induction props with
  | nil =>
    intro base out k _ h
    simp only [mergeProps, List.foldlM_nil, pure, Except.pure, Except.ok.injEq] at h
    subst h
    rfl
  | cons kv rest ih =>
    intro base out k hk h
    simp only [List.any_cons, Bool.or_eq_false_iff] at hk
    simp only [mergeProps, List.foldlM_cons] at h
    rw [exceptBind_eq_ok] at h
    obtain ⟨b', hb', hrest⟩ := h
    rw [ih b' out k hk.2 hrest]
    exact mergePropsEntry_entry_ne kind base kv b' k hk.1 hb'

theorem mergeProps_value_merged (kind : MergeKind) (props : PropsMap) :
    ∀ (base out : PropsMap) (k : String) (pa pb : Node),
    (props.map (·.1)).Nodup →
    objGetEntry base k = some (some pa) →
    lookupAssoc props k = some (some pb) →
    mergeProps kind base props = .ok out →
    objGetEntry out k = some (some (createProperty (nodeKeyField pa) (some (kind.toNode [pa, pb])) (nodeOptionalField pa || nodeOptionalField pb))) := by
  induction props with
  | nil => intro base out k pa pb _ _ hfind _; simp [lookupAssoc, List.find?] at hfind
  | cons kv rest ih =>
    intro base out k pa pb hnd hbase hfind h
    simp only [mergeProps, List.foldlM_cons] at h
    rw [exceptBind_eq_ok] at h
    obtain ⟨b', hb', hrest⟩ := h
    by_cases hk : kv.1 == k
    · have hkeq : kv.1 = k := eq_of_beq hk
      have hkv2 : kv.2 = some pb := by
        simp only [lookupAssoc, List.find?, hk, if_true, Option.map_some] at hfind
        exact Option.some.injEq _ _ ▸ hfind
      -- the entry step merges pa and pb
      have hb'entry : objGetEntry b' k = some (some (createProperty (nodeKeyField pa) (some (kind.toNode [pa, pb])) (nodeOptionalField pa || nodeOptionalField pb))) := by
        unfold mergePropsEntry at hb'
        have hhas : objHas base kv.1 = true := by
          rw [hkeq]
          have := objGetEntry_isSome base k
          rw [hbase] at this
          simpa using this.symm
        simp only [hhas, if_true] at hb'
        have hget : objGet base kv.1 = some pa := by
          rw [hkeq]
          simp [objGet, hbase]
        rw [hget, hkv2] at hb'
        simp only [pure, Except.pure, Except.ok.injEq] at hb'
        subst hb'
        rw [hkeq]
        exact objGetEntry_objSet_self base k _
      have hrestk : (rest.any fun e => e.1 == k) = false := by
        apply anyKey_eq_false_of_not_mem
        simp only [List.map_cons, List.nodup_cons] at hnd
        rw [← hkeq]
        exact hnd.1
      rw [mergeProps_entry_preserved kind rest b' out k hrestk hrest]
      exact hb'entry
    · have hkfalse : (kv.1 == k) = false := by simpa using hk
      have hb'entry : objGetEntry b' k = some (some pa) := by
        rw [mergePropsEntry_entry_ne kind base kv b' k hkfalse hb']
        exact hbase
      have hfindrest : lookupAssoc rest k = some (some pb) := by
        simp only [lookupAssoc, List.find?, hkfalse, Bool.false_eq_true, if_false] at hfind
        exact hfind
      have hndrest : (rest.map (·.1)).Nodup := by
        simp only [List.map_cons, List.nodup_cons] at hnd
        exact hnd.2
      exact ih b' out k pa pb hndrest hb'entry hfindrest hrest

theorem mergeProps_disjoint (kind : MergeKind) (props : PropsMap) :
    ∀ (base : PropsMap),
    (props.map (·.1)).Nodup →
    (∀ kv ∈ props, objHas base kv.1 = false) →
    mergeProps kind base props = .ok (base ++ props) := by
  induction props with
  | nil => intro base _ _; simp [mergeProps, List.foldlM_nil, pure, Except.pure]
  | cons kv rest ih =>
    intro base hnd hdisj
    simp only [mergeProps, List.foldlM_cons]
    have hhas : objHas base kv.1 = false := hdisj kv (List.mem_cons_self kv rest)
    have hstep : mergePropsEntry kind base kv = .ok (base ++ [kv]) := by
      unfold mergePropsEntry
      simp only [hhas, Bool.false_eq_true, if_false]
      have : objSet base kv.1 kv.2 = base ++ [kv] := by
        unfold objSet
        simp [hhas]
      rw [this]
      rfl
    rw [hstep]
    have hdisj' : ∀ kv2 ∈ rest, objHas (base ++ [kv]) kv2.1 = false := by
      intro kv2 hkv2
      rw [objHas_append]
      have h1 : objHas base kv2.1 = false := hdisj kv2 (List.mem_cons_of_mem kv hkv2)
      have h2 : objHas [kv] kv2.1 = false := by
        simp only [List.map_cons, List.nodup_cons] at hnd
        have : kv.1 ≠ kv2.1 := by
          intro heq
          exact hnd.1 (heq ▸ List.mem_map_of_mem (·.1) hkv2)
        simp [objHas, List.any_cons]
        intro habs
        exact this habs
      rw [h1, h2]
      rfl
    have hndrest : (rest.map (·.1)).Nodup := by
      simp only [List.map_cons, List.nodup_cons] at hnd
      exact hnd.2
    have hfold := ih (base ++ [kv]) hndrest hdisj'
    simp only [mergeProps] at hfold
    simp only [Bind.bind, Except.bind]
    rw [hfold]
    simp

theorem mergeElementsStep_props (kind : MergeKind) (res m acc' : ResolvedElements)
    (h : mergeElementsStep kind res m = .ok acc') :
    mergeProps kind res.props m.props = .ok acc'.props := by
  unfold mergeElementsStep at h
  rw [exceptBind_eq_ok] at h
  obtain ⟨p', hp', hpure⟩ := h
  simp only [pure, Except.pure, Except.ok.injEq] at hpure
  rw [← hpure]
  exact hp'

theorem mergeFold_keys (kind : MergeKind) (maps : List ResolvedElements) :
    ∀ (acc m : ResolvedElements), maps.foldlM (mergeElementsStep kind) acc = .ok m →
    ∀ x, objHas m.props x = (objHas acc.props x || maps.any fun r => objHas r.props x) := by
  induction maps with
  | nil =>
    intro acc m h x
    simp only [List.foldlM_nil, pure, Except.pure, Except.ok.injEq] at h
    subst h
    simp
  | cons a rest ih =>
    intro acc m h x
    simp only [List.foldlM_cons] at h
    rw [exceptBind_eq_ok] at h
    obtain ⟨acc', hstep, hrest⟩ := h
    have hprops := mergeElementsStep_props kind acc a acc' hstep
    have hkeys := mergeProps_keys kind a.props acc.props acc'.props hprops x
    have hrec := ih acc' m hrest x
    rw [hrec, hkeys]
    simp [Bool.or_assoc]

theorem mergeElements_keys (maps : List ResolvedElements) (kind : MergeKind) (m : ResolvedElements)
    (h : mergeElements maps kind = .ok m) (x : String) :
    objHas m.props x = maps.any fun r => objHas r.props x := by
  match maps with
  | [] =>
    simp only [mergeElements, List.foldlM_nil, pure, Except.pure, Except.ok.injEq] at h
    subst h
    simp [objHas]
  | [a] =>
    simp only [mergeElements, pure, Except.pure, Except.ok.injEq] at h
    subst h
    simp
  | a :: b :: rest =>
    have := mergeFold_keys kind (a :: b :: rest) {} m h x
    simpa [objHas] using this

end ResolveType

/-! ### Helper lemmas on deduplication, flat concatenation and name lists -/

theorem dedup_fold_mem (xs : List String) :
    ∀ (acc : List String) (x : String),
    x ∈ xs.foldl (fun acc x => if acc.contains x then acc else acc ++ [x]) acc
      ↔ (x ∈ acc ∨ x ∈ xs) := by
  induction xs with
  | nil => intro acc x; simp
  | cons y rest ih =>
    intro acc x
    simp only [List.foldl_cons]
    by_cases hy : acc.contains y
    · rw [if_pos hy, ih]
      constructor
      · rintro (h | h)
        · exact Or.inl h
        · exact Or.inr (List.mem_cons_of_mem y h)
      · rintro (h | h)
        · exact Or.inl h
        · rcases List.mem_cons.mp h with h | h
          · subst h
            exact Or.inl (List.elem_iff.mp hy)
          · exact Or.inr h
    · rw [if_neg hy, ih]
      simp only [List.mem_append, List.mem_singleton, List.mem_cons]
      tauto

theorem mem_dedup (xs : List String) (x : String) : x ∈ dedup xs ↔ x ∈ xs := by
  unfold dedup
  rw [dedup_fold_mem]
  simp

theorem mem_foldl_append {β : Type} (f : β → List String) (ts : List β) :
    ∀ (acc : List String) (x : String),
    x ∈ ts.foldl (fun acc t => acc ++ f t) acc ↔ (x ∈ acc ∨ ∃ t ∈ ts, x ∈ f t) := by
  induction ts with
  | nil => intro acc x; simp
  | cons t rest ih =>
    intro acc x
    simp only [List.foldl_cons]
    rw [ih]
    simp only [List.mem_append, List.mem_cons]
    constructor
    · rintro ((h | h) | ⟨u, hu, hx⟩)
      · exact Or.inl h
      · exact Or.inr ⟨t, Or.inl rfl, h⟩
      · exact Or.inr ⟨u, Or.inr hu, hx⟩
    · rintro (h | ⟨u, (hu | hu), hx⟩)
      · exact Or.inl (Or.inl h)
      · exact Or.inl (Or.inr (hu ▸ hx))
      · exact Or.inr ⟨u, hu, hx⟩

theorem contains_false_of_subset (l L : List String) (nm : String)
    (hsub : ∀ x ∈ l, x ∈ L) (h : L.contains nm = false) : l.contains nm = false := by
  cases hc : l.contains nm
  · rfl
  · have hT : L.contains nm = true := List.elem_iff.mpr (hsub nm (List.elem_iff.mp hc))
    rw [hT] at h
    exact h

theorem beq_false_of_contains_false (L : List String) (nm s : String)
    (hs : s ∈ L) (h : L.contains nm = false) : (nm == s) = false := by
  cases hb : nm == s
  · rfl
  · have : nm = s := eq_of_beq hb
    subst this
    have hT : L.contains nm = true := List.elem_iff.mpr hs
    rw [hT] at h
    exact h

/-! ### Generic association-list lemmas (for `objSetA` maps) -/

theorem anyKeyA_eq_false_of_not_mem {α : Type} (props : List (String × α)) (k : String)
    (h : k ∉ props.map (·.1)) : (props.any fun e => e.1 == k) = false := by
  cases hany : props.any fun e => e.1 == k
  · rfl
  · rw [List.any_eq_true] at hany
    obtain ⟨e, he, hek⟩ := hany
    have : e.1 = k := eq_of_beq hek
    exact absurd (this ▸ List.mem_map_of_mem (·.1) he) h

theorem lookupAssoc_isSome_any {α : Type} (m : List (String × α)) (k : String) :
    (lookupAssoc m k).isSome = m.any (fun e => e.1 == k) := by
  induction m with
  | nil => rfl
  | cons e rest ih =>
    by_cases he : e.1 == k
    · simp [lookupAssoc, List.find?, he]
    · simp only [lookupAssoc, List.find?, he, List.any_cons, Bool.false_or] at ih ⊢
      exact ih

theorem findA_map_set_self {α : Type} (m : List (String × α)) (k : String) (v : α)
    (h : (m.any fun e => e.1 == k) = true) :
    ((m.map fun e => if e.1 == k then (k, v) else e).find? fun e => e.1 == k)
      = some (k, v) := by
  induction m with
  | nil => simp at h
  | cons e rest ih =>
    by_cases he : e.1 == k
    · simp only [List.map_cons, he, if_true, List.find?]
      simp
    · simp only [List.any_cons, he, Bool.false_or] at h
      simp only [List.map_cons, he, Bool.false_eq_true, if_false, List.find?]
      exact ih h

theorem lookupAssoc_objSetA_self {α : Type} (m : List (String × α)) (k : String) (v : α) :
    lookupAssoc (objSetA m k v) k = some v := by
  unfold objSetA
  by_cases h : (m.any fun e => e.1 == k) = true
  · simp only [h, if_true]
    show (((m.map fun e => if e.1 == k then (k, v) else e).find? fun e => e.1 == k).map (·.2))
      = some v
    rw [findA_map_set_self m k v h]
    rfl
  · simp only [h, if_false, Bool.false_eq_true]
    show (((m ++ [(k, v)]).find? fun e => e.1 == k).map (·.2)) = some v
    rw [List.find?_append]
    have hm : (m.find? fun e => e.1 == k) = none := by
      rw [List.find?_eq_none]
      intro e he hek
      have habs : (m.any fun e => e.1 == k) = true := by
        rw [List.any_eq_true]
        exact ⟨e, he, hek⟩
      exact h habs
    simp [hm, List.find?]

theorem findA_map_set_ne {α : Type} (m : List (String × α)) (k x : String) (v : α)
    (h : (k == x) = false) :
    ((m.map fun e => if e.1 == k then (k, v) else e).find? fun e => e.1 == x)
      = (m.find? fun e => e.1 == x) := by
  induction m with
  | nil => rfl
  | cons e rest ih =>
    by_cases he : e.1 == k
    · have hek : e.1 = k := eq_of_beq he
      have hex : (e.1 == x) = false := by rw [hek]; exact h
      simp only [List.map_cons, he, if_true, List.find?, h, hex, Bool.false_eq_true, if_false]
      exact ih
    · simp only [List.map_cons, he, Bool.false_eq_true, if_false, List.find?]
      by_cases hex : e.1 == x
      · simp [hex]
      · simp only [hex, Bool.false_eq_true, if_false]
        exact ih

theorem lookupAssoc_objSetA_ne {α : Type} (m : List (String × α)) (k x : String) (v : α)
    (h : (k == x) = false) :
    lookupAssoc (objSetA m k v) x = lookupAssoc m x := by
  unfold objSetA
  by_cases hm : (m.any fun e => e.1 == k) = true
  · simp only [hm, if_true]
    show (((m.map fun e => if e.1 == k then (k, v) else e).find? fun e => e.1 == x).map (·.2))
      = lookupAssoc m x
    rw [findA_map_set_ne m k x v h]
    rfl
  · simp only [hm, if_false, Bool.false_eq_true]
    show (((m ++ [(k, v)]).find? fun e => e.1 == x).map (·.2)) = lookupAssoc m x
    rw [List.find?_append]
    cases hfind : m.find? fun e => e.1 == x with
    | some e => simp [lookupAssoc, hfind]
    | none => simp [lookupAssoc, hfind, List.find?, h]

theorem lookupAssoc_objSetA_isSome {α : Type} (m : List (String × α)) (k x : String) (v : α) :
    (lookupAssoc (objSetA m k v) x).isSome = ((lookupAssoc m x).isSome || (k == x)) := by
  by_cases hkx : (k == x) = true
  · have : k = x := eq_of_beq hkx
    subst this
    rw [lookupAssoc_objSetA_self]
    simp
  · have hkx' : (k == x) = false := by simpa using hkx
    rw [lookupAssoc_objSetA_ne m k x v hkx', hkx']
    simp

/-! ### Helper lemmas about the oxc `mergeTypeElements` -/

namespace OxcResolveType

theorem mtStep_lookup_ne (m : List (String × TypeElementProperty))
    (kv : String × TypeElementProperty) (x : String) (h : (kv.1 == x) = false) :
    lookupAssoc (mtStep m kv) x = lookupAssoc m x := by
  unfold mtStep
  cases lookupAssoc m kv.1
  · exact lookupAssoc_objSetA_ne m kv.1 x kv.2 h
  · exact lookupAssoc_objSetA_ne m kv.1 x _ h

theorem mtStep_lookup_self (m : List (String × TypeElementProperty))
    (kv : String × TypeElementProperty) :
    lookupAssoc (mtStep m kv) kv.1
      = some (match lookupAssoc m kv.1 with
          | none => kv.2
          | some ex => { kv.2 with optional := ex.optional && kv.2.optional }) := by
  unfold mtStep
  cases lookupAssoc m kv.1
  · exact lookupAssoc_objSetA_self m kv.1 kv.2
  · exact lookupAssoc_objSetA_self m kv.1 _

theorem mtStep_isSome (m : List (String × TypeElementProperty))
    (kv : String × TypeElementProperty) (x : String) :
    (lookupAssoc (mtStep m kv) x).isSome = ((lookupAssoc m x).isSome || (kv.1 == x)) := by
  unfold mtStep
  cases lookupAssoc m kv.1
  · exact lookupAssoc_objSetA_isSome m kv.1 x kv.2
  · exact lookupAssoc_objSetA_isSome m kv.1 x _

theorem mtFold_lookup_ne (src : List (String × TypeElementProperty)) :
    ∀ (m : List (String × TypeElementProperty)) (x : String),
    (src.any fun e => e.1 == x) = false →
    lookupAssoc (src.foldl mtStep m) x = lookupAssoc m x := by
  induction src with
  | nil => intro m x _; rfl
  | cons kv rest ih =>
    intro m x h
    simp only [List.any_cons, Bool.or_eq_false_iff] at h
    simp only [List.foldl_cons]
    rw [ih (mtStep m kv) x h.2]
    exact mtStep_lookup_ne m kv x h.1

theorem mtFold_value (src : List (String × TypeElementProperty)) :
    ∀ (m : List (String × TypeElementProperty)) (k : String) (pb : TypeElementProperty),
    (src.map (·.1)).Nodup →
    lookupAssoc src k = some pb →
    lookupAssoc (src.foldl mtStep m) k
      = some (match lookupAssoc m k with
          | none => pb
          | some ex => { pb with optional := ex.optional && pb.optional }) := by
  induction src with
  | nil => intro m k pb _ hfind; simp [lookupAssoc, List.find?] at hfind
  | cons kv rest ih =>
    intro m k pb hnd hfind
    simp only [List.foldl_cons]
    by_cases hk : kv.1 == k
    · have hkeq : kv.1 = k := eq_of_beq hk
      have hkv2 : kv.2 = pb := by
        simp only [lookupAssoc, List.find?, hk, if_true, Option.map_some] at hfind
        exact Option.some.injEq _ _ ▸ hfind
      have hrestk : (rest.any fun e => e.1 == k) = false := by
        apply anyKeyA_eq_false_of_not_mem
        simp only [List.map_cons, List.nodup_cons] at hnd
        rw [← hkeq]
        exact hnd.1
      rw [mtFold_lookup_ne rest (mtStep m kv) k hrestk]
      rw [← hkeq, mtStep_lookup_self m kv, hkv2, hkeq]
    · have hkfalse : (kv.1 == k) = false := by simpa using hk
      have hfindrest : lookupAssoc rest k = some pb := by
        simp only [lookupAssoc, List.find?, hkfalse, Bool.false_eq_true, if_false] at hfind
        exact hfind
      have hndrest : (rest.map (·.1)).Nodup := by
        simp only [List.map_cons, List.nodup_cons] at hnd
        exact hnd.2
      rw [ih (mtStep m kv) k pb hndrest hfindrest]
      rw [mtStep_lookup_ne m kv k hkfalse]

theorem mtFold_isSome (src : List (String × TypeElementProperty)) :
    ∀ (m : List (String × TypeElementProperty)) (x : String),
    (lookupAssoc (src.foldl mtStep m) x).isSome
      = ((lookupAssoc m x).isSome || src.any fun e => e.1 == x) := by
  induction src with
  | nil => intro m x; simp
  | cons kv rest ih =>
    intro m x
    simp only [List.foldl_cons, List.any_cons]
    rw [ih (mtStep m kv) x, mtStep_isSome m kv x]
    simp [Bool.or_assoc]

theorem mergeTypeElements_lookup (t s : TypeElements) (k : String)
    (pb : TypeElementProperty)
    (hnd : (s.props.map (·.1)).Nodup) (hs : lookupAssoc s.props k = some pb) :
    lookupAssoc (mergeTypeElements t s).props k
      = some (match lookupAssoc t.props k with
          | none => pb
          | some ex => { pb with optional := ex.optional && pb.optional }) := by
  show lookupAssoc (s.props.foldl mtStep t.props) k = _
  exact mtFold_value s.props t.props k pb hnd hs

theorem mergeTypeElements_isSome (t s : TypeElements) (x : String) :
    (lookupAssoc (mergeTypeElements t s).props x).isSome
      = ((lookupAssoc t.props x).isSome || (lookupAssoc s.props x).isSome) := by
  show (lookupAssoc (s.props.foldl mtStep t.props) x).isSome = _
  rw [mtFold_isSome s.props t.props x, lookupAssoc_isSome_any s.props x]

end OxcResolveType

/-! ### Helper lemmas about the `Pick` fold and spread-copied optionality -/

namespace ResolveType

theorem nodeOptionalField_spread_false (v : Option Node) :
    nodeOptionalField (spreadSetOptional v false) = false := by
  cases v with
  | none => rfl
  | some n => cases n <;> rfl

theorem objGet_mem (m : PropsMap) (x : String) (p : Node) (h : objGet m x = some p) :
    ∃ e ∈ m, e.2 = some p := by
  unfold objGet objGetEntry at h
  cases hf : m.find? (fun e => e.1 == x) with
  | none => rw [hf] at h; simp at h
  | some e =>
    rw [hf] at h
    refine ⟨e, List.mem_of_find?_eq_some hf, ?_⟩
    simpa using h

theorem objKeys_map_snd (m : PropsMap) (f : String × Option Node → Option Node) :
    objKeys (m.map fun kv => (kv.1, f kv)) = objKeys m := by
  unfold objKeys
  rw [List.map_map]
  rfl

theorem pickFold_has (tprops : PropsMap) (keys : List StrE) :
    ∀ (acc : PropsMap) (x : String),
    objHas (keys.foldl (fun m k => objSet m (strEKey k) (objGet tprops (strEKey k))) acc) x
      = (objHas acc x || keys.any fun k => strEKey k == x) := by
  induction keys with
  | nil => intro acc x; simp
  | cons k ks ih =>
    intro acc x
    simp only [List.foldl_cons, List.any_cons]
    rw [ih, objHas_objSet]
    simp [Bool.or_assoc]

theorem pickFold_preserve (tprops : PropsMap) (keys : List StrE) :
    ∀ (acc : PropsMap) (x : String),
    (keys.any fun k => strEKey k == x) = false →
    objGetEntry (keys.foldl (fun m k => objSet m (strEKey k) (objGet tprops (strEKey k))) acc) x
      = objGetEntry acc x := by
  induction keys with
  | nil => intro acc x _; rfl
  | cons k ks ih =>
    intro acc x h
    simp only [List.any_cons, Bool.or_eq_false_iff] at h
    simp only [List.foldl_cons]
    rw [ih _ x h.2]
    exact objGetEntry_objSet_ne acc (strEKey k) x _ h.1

theorem pickFold_entry (tprops : PropsMap) (keys : List StrE) :
    ∀ (acc : PropsMap) (x : String),
    (keys.any fun k => strEKey k == x) = true →
    objGetEntry (keys.foldl (fun m k => objSet m (strEKey k) (objGet tprops (strEKey k))) acc) x
      = some (objGet tprops x) := by
  induction keys with
  | nil => intro acc x h; simp at h
  | cons k ks ih =>
    intro acc x h
    simp only [List.foldl_cons]
    by_cases hks : (ks.any fun k => strEKey k == x) = true
    · exact ih _ x hks
    · have hks' : (ks.any fun k => strEKey k == x) = false := by simpa using hks
      have hk : (strEKey k == x) = true := by
        simp only [List.any_cons, hks', Bool.or_false] at h
        exact h
      have hkeq : strEKey k = x := eq_of_beq hk
      rw [pickFold_preserve tprops ks _ x hks']
      rw [← hkeq]
      exact objGetEntry_objSet_self acc (strEKey k) _

end ResolveType

/-! ## Claim theorems -/

/-- C6 (code bug): the spec requires every type that cannot be reduced to a
finite set of string keys — in particular the bare `string` keyword — to
make the String-Set Evaluator raise a fatal error. The code instead
returns JavaScript `null` (`return null as any`) for the bare `string`
keyword, a value and not an error, while other irreducible types (here a
function type) do raise the fatal `Failed to resolve index type into
finite keys` error; a caller such as `Pick` then crashes with a raw
`TypeError` iterating the `null` instead of surfacing the fatal error. -/
theorem resolveStringType_string_keyword_null (fuel : Nat) (ctx : ResolveType.Ctx)
    (scope : ResolveType.TypeScope) (tp : Option (List (String × Node))) :
    ResolveType.resolveStringType ctx (fuel + 1) .tsStringKeyword scope tp = .ok none
    ∧ ResolveType.resolveStringType ctx (fuel + 1) (.tsFunctionType none) scope tp
        = .error .failedResolveIndexKeys
    ∧ ResolveType.resolveBuiltin ctx 5 "Pick"
        (some [.tsTypeLiteral [propA], .tsStringKeyword]) scope tp
        = .error .jsTypeError :=
  ⟨rfl, rfl, rfl⟩

/-- C8 (amended): in the main Runtime-Tag Inferencer the `null`,
`undefined` and `void` keywords map to exactly the Null tag, but the
`never` keyword has no case in the switch and falls through to the
Unknown tag; in the oxc inferencer all four keywords map to the Null
tag. -/
theorem inferRuntimeType_null_like (fuel : Nat) (ctx : ResolveType.Ctx)
    (scope : ResolveType.TypeScope) (isKeyOf : Bool)
    (tp : Option (List (String × Node))) (octx : OxcResolveType.Ctx)
    (oscope : OxcResolveType.TypeScope) (seen : List String)
    (gb : OxcResolveType.GenericBindings) :
    ResolveType.inferRuntimeType ctx (fuel + 1 + 1) .tsNullKeyword scope isKeyOf tp = ["null"]
    ∧ ResolveType.inferRuntimeType ctx (fuel + 1 + 1) .tsUndefinedKeyword scope isKeyOf tp
        = ["null"]
    ∧ ResolveType.inferRuntimeType ctx (fuel + 1 + 1) .tsVoidKeyword scope isKeyOf tp = ["null"]
    ∧ ResolveType.inferRuntimeType ctx (fuel + 1 + 1) .tsNeverKeyword scope isKeyOf tp
        = [UNKNOWN_TYPE]
    ∧ OxcResolveType.inferRuntimeTypeInScope octx (fuel + 1) .tsNullKeyword oscope seen gb
        = .ok (["null"], seen)
    ∧ OxcResolveType.inferRuntimeTypeInScope octx (fuel + 1) .tsUndefinedKeyword oscope seen gb
        = .ok (["null"], seen)
    ∧ OxcResolveType.inferRuntimeTypeInScope octx (fuel + 1) .tsVoidKeyword oscope seen gb
        = .ok (["null"], seen)
    ∧ OxcResolveType.inferRuntimeTypeInScope octx (fuel + 1) .tsNeverKeyword oscope seen gb
        = .ok (["null"], seen) :=
  ⟨rfl, rfl, rfl, rfl, rfl, rfl, rfl, rfl⟩

/-- C8 counterexample: the main Runtime-Tag Inferencer maps the `never`
keyword to the Unknown tag, not the Null tag the claim requires for all
four keywords. -/
theorem inferRuntimeType_never_counterexample :
    ResolveType.inferRuntimeType emptyCtx 2 .tsNeverKeyword emptyScope false none
        = [UNKNOWN_TYPE]
    ∧ [UNKNOWN_TYPE] ≠ (["null"] : List String) :=
  ⟨rfl, by decide⟩

/-- C7 counterexample: inferring an intersection both of whose members
produce only the Unknown tag yields the empty tag list — the
`filter(t ≠ UNKNOWN)` is unconditional — not the Unknown tag the claim
requires for that case. -/
theorem inferRuntimeType_intersection_counterexample :
    ResolveType.inferRuntimeType emptyCtx 9
        (.tsIntersectionType [.tsAnyKeyword, .tsAnyKeyword]) emptyScope false none = []
    ∧ ([] : List String) ≠ [UNKNOWN_TYPE] :=
  ⟨rfl, by decide⟩

/-- On the mutually re-exporting pair `/a.ts` / `/b.ts`, the main engine's
reference resolver consumes one unit of stack per import hop at every
depth: with any remaining budget it recurses and the budget is exhausted
(`outOfFuel` models the JavaScript stack-overflow `RangeError`). -/
theorem cycLoop_out_of_fuel :
    ∀ fuel : Nat,
      (∀ (oe : Bool) (node : Node),
        ResolveType.innerResolveTypeReference cycCtx fuel cycScopeA "X" node oe
          = .error .outOfFuel)
      ∧ (∀ (oe : Bool) (node : Node),
        ResolveType.innerResolveTypeReference cycCtx fuel cycScopeB "X" node oe
          = .error .outOfFuel)
      ∧ (∀ node : Node,
        ResolveType.resolveTypeFromImport cycCtx fuel node "X" cycScopeA
          = .error .outOfFuel)
      ∧ (∀ node : Node,
        ResolveType.resolveTypeFromImport cycCtx fuel node "X" cycScopeB
          = .error .outOfFuel) := by
  intro fuel
  induction fuel with
  | zero => exact ⟨fun _ _ => rfl, fun _ _ => rfl, fun _ => rfl, fun _ => rfl⟩
  | succ n ih =>
    refine ⟨?_, ?_, ?_, ?_⟩
    · intro oe node
      show ResolveType.resolveTypeFromImport cycCtx n node "X" cycScopeA
        = .error .outOfFuel
      exact ih.2.2.1 node
    · intro oe node
      show ResolveType.resolveTypeFromImport cycCtx n node "X" cycScopeB
        = .error .outOfFuel
      exact ih.2.2.2 node
    · intro node
      show ResolveType.innerResolveTypeReference cycCtx n cycScopeB "X" node true
        = .error .outOfFuel
      exact ih.2.1 true node
    · intro node
      show ResolveType.innerResolveTypeReference cycCtx n cycScopeA "X" node true
        = .error .outOfFuel
      exact ih.1 true node

/-- C4 (amended): only the oxc reference resolver keeps the in-progress
`(scope filename, name)` set — re-encountering such a pair returns absent
with the set unchanged, so oxc resolution terminates on self- and
mutually-referential declarations and degrades to unresolved (the
self-referential alias `type A = A` decomposes to the empty element set).
The main engine's `innerResolveTypeReference` keeps no such set: on two
files re-exporting `X` from each other it recurses through the import hop
at every depth, so resolution exhausts any stack budget instead of
returning absent. -/
theorem resolveNamedTypeReference_cycle_absent :
    (∀ (ctx : OxcResolveType.Ctx) (name : String) (scope : OxcResolveType.TypeScope)
       (seen : List String) (fuel : Nat),
      seen.contains (scope.filename ++ "::" ++ name) = true →
      OxcResolveType.resolveNamedTypeReference ctx (fuel + 1) name scope seen = .ok (none, seen))
    ∧ OxcResolveType.resolveTypeElementsInScope oxcSelfCtx 50 (.tsTypeReference "A" none)
        oxcSelfScope [] [] = .ok (⟨[], []⟩, ["/self.ts::A"])
    ∧ (∀ fuel : Nat,
        ResolveType.resolveTypeReference cycCtx fuel (.tsTypeReference "X" none) cycScopeA
          = .error .outOfFuel) := by
  refine ⟨?_, rfl, ?_⟩
  · intro ctx name scope seen fuel h
    simp only [OxcResolveType.resolveNamedTypeReference, h]
    rfl
  · intro fuel
    cases fuel with
    | zero => rfl
    | succ n => exact (cycLoop_out_of_fuel n).1 false (.tsTypeReference "X" none)

/-- C4 witness: the cycle hypothesis and the returned-absent conclusion at
a concrete in-progress pair. -/
theorem resolveNamedTypeReference_cycle_absent_witness :
    (["/self.ts::A"].contains ("/self.ts" ++ "::" ++ "A") = true)
    ∧ OxcResolveType.resolveNamedTypeReference oxcSelfCtx 10 "A" oxcSelfScope ["/self.ts::A"]
        = .ok (none, ["/self.ts::A"]) :=
  ⟨by decide,
   resolveNamedTypeReference_cycle_absent.1 oxcSelfCtx "A" oxcSelfScope ["/self.ts::A"] 9
     (by decide)⟩

/-- C4 counterexample: the main engine's reference resolver has no
in-progress pair set. On `/a.ts` re-exporting `X` from `/b.ts` and vice
versa — a genuine resolution cycle, as the two import-source hops show —
resolving `X` does not return absent: it recurses at every depth and
exhausts any stack budget (`outOfFuel`, the JavaScript stack-overflow
`RangeError`), contradicting the claim for the cited
`innerResolveTypeReference`. -/
theorem resolveTypeReference_reexport_cycle_counterexample :
    ResolveType.importSourceToScope cycCtx (.tsTypeReference "X" none) cycScopeA "./b"
        = .ok cycScopeB
    ∧ ResolveType.importSourceToScope cycCtx (.tsTypeReference "X" none) cycScopeB "./a"
        = .ok cycScopeA
    ∧ (∀ fuel : Nat,
        ResolveType.resolveTypeReference cycCtx fuel (.tsTypeReference "X" none) cycScopeA
          = .error .outOfFuel) := by
  refine ⟨rfl, rfl, ?_⟩
  intro fuel
  cases fuel with
  | zero => rfl
  | succ n => exact (cycLoop_out_of_fuel n).1 false (.tsTypeReference "X" none)

/-- C1 (amended): in the main engine the structural decomposer sends a
union to `mergeElements` over the members' decompositions — so when every
member decomposes, the result's key set is the union of the members' key
sets, not empty; only the oxc engine's decomposer returns the empty
element set for every union. -/
theorem resolveTypeElements_union_merges
    (ctx : ResolveType.Ctx) (scope : ResolveType.TypeScope)
    (tp : Option (List (String × Node))) (ts : List Node) (fuel : Nat)
    (rs : List ResolveType.ResolvedElements)
    (h : ts.mapM (fun t => ResolveType.resolveTypeElements ctx fuel t scope tp) = .ok rs) :
    (ResolveType.innerResolveTypeElements ctx (fuel + 1) (.tsUnionType ts) scope tp
        = ResolveType.mergeElements rs .union)
    ∧ (∀ m, ResolveType.mergeElements rs .union = .ok m →
        ∀ x, objHas m.props x = rs.any fun r => objHas r.props x)
    ∧ (∀ (octx : OxcResolveType.Ctx) (oscope : OxcResolveType.TypeScope)
         (seen : List String) (gb : OxcResolveType.GenericBindings) (g : Nat)
         (ots : List Node),
        OxcResolveType.resolveTypeElementsInScope octx (g + 1) (.tsUnionType ots) oscope seen gb
          = .ok (⟨[], []⟩, seen)) := by
  refine ⟨?_, ?_, ?_⟩
  · show (do
        let rs2 ← ts.mapM fun t => ResolveType.resolveTypeElements ctx fuel t scope tp
        ResolveType.mergeElements rs2 .union) = ResolveType.mergeElements rs .union
    rw [h]
    rfl
  · intro m hm x
    exact ResolveType.mergeElements_keys rs .union m hm x
  · intro octx oscope seen gb g ots
    rfl

/-- C1 witness: the members' decompositions and the merged union at a
concrete two-member union. -/
theorem resolveTypeElements_union_merges_witness :
    ([Node.tsTypeLiteral [propA], Node.tsTypeLiteral [propB]].mapM
        (fun t => ResolveType.resolveTypeElements emptyCtx 50 t emptyScope none)
      = .ok [{ props := [("a", some propA)] }, { props := [("b", some propB)] }])
    ∧ ResolveType.innerResolveTypeElements emptyCtx 51
        (.tsUnionType [.tsTypeLiteral [propA], .tsTypeLiteral [propB]]) emptyScope none
      = ResolveType.mergeElements
          [{ props := [("a", some propA)] }, { props := [("b", some propB)] }] .union :=
  ⟨rfl,
   (resolveTypeElements_union_merges emptyCtx emptyScope none
     [.tsTypeLiteral [propA], .tsTypeLiteral [propB]] 50
     [{ props := [("a", some propA)] }, { props := [("b", some propB)] }] rfl).1⟩

/-- C1 counterexample: decomposing the union
`{a: string} | {b?: number}` with the main decomposer yields the merged
two-key element map, not the empty element set the claim requires. -/
theorem resolveTypeElements_union_counterexample :
    ResolveType.resolveTypeElements emptyCtx 52
        (.tsUnionType [.tsTypeLiteral [propA], .tsTypeLiteral [propB]]) emptyScope none
      = .ok { props := [("a", some propA), ("b", some propB)] }
    ∧ ([("a", some propA), ("b", some propB)] : PropsMap) ≠ [] :=
  ⟨rfl, by simp⟩

/-- C2 (amended): merging two decomposed element maps never drops a key —
in both engines the merged key set is the union of the operands' key
sets — but on a key collision the main engine's `mergeElements` makes the
merged property optional when EITHER operand is optional (OR), for
intersections as well as unions, while the oxc engine's
`mergeTypeElements` keeps the source property with the AND of the two
optionalities, as the spec demands. -/
theorem mergeElements_intersection_optionality
    (a b : ResolveType.ResolvedElements) (kind : ResolveType.MergeKind)
    (k : String) (pa pb : Node) (m : ResolveType.ResolvedElements)
    (hna : (a.props.map (·.1)).Nodup) (hnb : (b.props.map (·.1)).Nodup)
    (ha : objGetEntry a.props k = some (some pa))
    (hb : objGetEntry b.props k = some (some pb))
    (hm : ResolveType.mergeElements [a, b] kind = .ok m) :
    ((objGet m.props k).map ResolveType.nodeOptionalField
        = some (ResolveType.nodeOptionalField pa || ResolveType.nodeOptionalField pb))
    ∧ (∀ x, objHas m.props x = (objHas a.props x || objHas b.props x))
    ∧ (∀ (t s : OxcResolveType.TypeElements) (k2 : String)
         (pb2 : OxcResolveType.TypeElementProperty),
        (s.props.map (·.1)).Nodup →
        lookupAssoc s.props k2 = some pb2 →
        lookupAssoc (OxcResolveType.mergeTypeElements t s).props k2
          = some (match lookupAssoc t.props k2 with
              | none => pb2
              | some ex => { pb2 with optional := ex.optional && pb2.optional }))
    ∧ (∀ (t s : OxcResolveType.TypeElements) (x : String),
        (lookupAssoc (OxcResolveType.mergeTypeElements t s).props x).isSome
          = ((lookupAssoc t.props x).isSome || (lookupAssoc s.props x).isSome)) := by
  have hm' : [a, b].foldlM (ResolveType.mergeElementsStep kind) {} = .ok m := hm
  simp only [List.foldlM_cons, List.foldlM_nil] at hm'
  rw [exceptBind_eq_ok] at hm'
  obtain ⟨r1, h1, hm'⟩ := hm'
  rw [exceptBind_eq_ok] at hm'
  obtain ⟨r2, h2, hp⟩ := hm'
  have hr2 : r2 = m := by simpa [pure, Except.pure] using hp
  rw [hr2] at h2
  have hp1 : ResolveType.mergeProps kind [] a.props = .ok r1.props :=
    ResolveType.mergeElementsStep_props kind {} a r1 h1
  have hd := ResolveType.mergeProps_disjoint kind a.props [] hna (fun kv _ => rfl)
  rw [hd] at hp1
  have hr1 : r1.props = a.props := by
    have := hp1
    simp only [List.nil_append, Except.ok.injEq] at this
    exact this.symm
  have hp2 : ResolveType.mergeProps kind r1.props b.props = .ok m.props :=
    ResolveType.mergeElementsStep_props kind r1 b m h2
  rw [hr1] at hp2
  have hval := ResolveType.mergeProps_value_merged kind b.props a.props m.props k pa pb
    hnb ha hb hp2
  refine ⟨?_, ?_, ?_, ?_⟩
  · show ((objGetEntry m.props k).join).map ResolveType.nodeOptionalField = _
    rw [hval]
    rfl
  · intro x
    have := ResolveType.mergeElements_keys [a, b] kind m hm x
    simpa using this
  · intro t s k2 pb2 hnd2 hs2
    exact OxcResolveType.mergeTypeElements_lookup t s k2 pb2 hnd2 hs2
  · intro t s x
    exact OxcResolveType.mergeTypeElements_isSome t s x

/-- C2 witness: an optional `k` merged with a required `k` as an
intersection, and the merged property's optionality equal to the OR of
the operands'. -/
theorem mergeElements_intersection_optionality_witness :
    ResolveType.mergeElements
        [{ props := [("k", some propKOpt)] }, { props := [("k", some propKReq)] }] .inter
      = .ok { props := [("k", some (.tsPropertySignature (some "k") true
            (some (.tsIntersectionType [propKOpt, propKReq]))))] }
    ∧ (objGet [("k", some (.tsPropertySignature (some "k") true
          (some (.tsIntersectionType [propKOpt, propKReq]))))] "k").map
        ResolveType.nodeOptionalField
      = some (ResolveType.nodeOptionalField propKOpt
          || ResolveType.nodeOptionalField propKReq) :=
  ⟨rfl,
   (mergeElements_intersection_optionality
     { props := [("k", some propKOpt)] } { props := [("k", some propKReq)] } .inter
     "k" propKOpt propKReq
     { props := [("k", some (.tsPropertySignature (some "k") true
         (some (.tsIntersectionType [propKOpt, propKReq]))))] }
     (by decide) (by decide) rfl rfl rfl).1⟩

/-- C2 counterexample: in the main engine an intersection-merged key
present in both operands (optional in one, required in the other) comes
out optional — the OR of the optionalities — whereas the claim requires
the AND, which is false here. -/
theorem mergeElements_intersection_counterexample :
    ResolveType.mergeElements
        [{ props := [("k", some propKOpt)] }, { props := [("k", some propKReq)] }] .inter
      = .ok { props := [("k", some (.tsPropertySignature (some "k") true
            (some (.tsIntersectionType [propKOpt, propKReq]))))] }
    ∧ (ResolveType.nodeOptionalField propKOpt
        && ResolveType.nodeOptionalField propKReq) = false
    ∧ ResolveType.nodeOptionalField (.tsPropertySignature (some "k") true
        (some (.tsIntersectionType [propKOpt, propKReq]))) = true :=
  ⟨rfl, rfl, rfl⟩

/-- C5: the main Runtime-Tag Inferencer never raises — whenever the
guarded case analysis raises any internal error, the `try/catch` entry
swallows it and returns the Unknown tag — and a reference that resolves
to nothing and names none of the switch's built-ins yields the Unknown
tag instead of an error. -/
theorem inferRuntimeType_never_raises
    (ctx : ResolveType.Ctx) (scope : ResolveType.TypeScope) :
    (∀ (node : Node) (isKeyOf : Bool) (tp : Option (List (String × Node))) (fuel : Nat)
       (e : Err),
      ResolveType.inferRuntimeTypeBody ctx fuel node scope isKeyOf tp = .error e →
      ResolveType.inferRuntimeType ctx (fuel + 1) node scope isKeyOf tp = [UNKNOWN_TYPE])
    ∧ (∀ (name : String) (typeArgs : Option (List Node)) (g : Nat),
      ResolveType.resolveTypeReference ctx (g + 1 + 1) (.tsTypeReference name typeArgs) scope
          = .ok none →
      inferRefSwitchNames.contains name = false →
      ResolveType.inferRuntimeType ctx (g + 1 + 1 + 1 + 1) (.tsTypeReference name typeArgs)
          scope false none = [UNKNOWN_TYPE]) := by
  constructor
  · intro node isKeyOf tp fuel e h
    simp only [ResolveType.inferRuntimeType]
    rw [h]
  · intro name typeArgs g hres hn
    have hne : ∀ s ∈ inferRefSwitchNames, name ≠ s := by
      intro s hs
      exact ne_of_beq_false (beq_false_of_contains_false inferRefSwitchNames name s hs hn)
    have h5 : (name == "ReadonlyMap") = false :=
      beq_false_of_contains_false inferRefSwitchNames name _ (by decide) hn
    have h6 : (name == "ReadonlySet") = false :=
      beq_false_of_contains_false inferRefSwitchNames name _ (by decide) hn
    have h7 : (name == "NonNullable") = false :=
      beq_false_of_contains_false inferRefSwitchNames name _ (by decide) hn
    have h8 : (name == "Extract") = false :=
      beq_false_of_contains_false inferRefSwitchNames name _ (by decide) hn
    have h9 : (name == "Exclude") = false :=
      beq_false_of_contains_false inferRefSwitchNames name _ (by decide) hn
    have h10 : (name == "OmitThisParameter") = false :=
      beq_false_of_contains_false inferRefSwitchNames name _ (by decide) hn
    have hbody : ResolveType.inferRuntimeTypeBody ctx (g + 1 + 1 + 1)
        (.tsTypeReference name typeArgs) scope false none = .ok [UNKNOWN_TYPE] := by
      simp only [ResolveType.inferRuntimeTypeBody]
      rw [hres]
      simp [Bind.bind, Except.bind, ResolveType.tpGet, h5, h6, h7, h8, h9, h10]
      have c1 : ¬(name = "Array" ∨ name = "Function" ∨ name = "Object" ∨ name = "Set"
          ∨ name = "Map" ∨ name = "WeakSet" ∨ name = "WeakMap" ∨ name = "Date"
          ∨ name = "Promise" ∨ name = "Error") := by
        rintro (h | h | h | h | h | h | h | h | h | h) <;> exact hne _ (by decide) h
      have c2 : ¬(name = "Partial" ∨ name = "Required" ∨ name = "Readonly"
          ∨ name = "Record" ∨ name = "Pick" ∨ name = "Omit" ∨ name = "InstanceType") := by
        rintro (h | h | h | h | h | h | h) <;> exact hne _ (by decide) h
      have c3 : ¬(name = "Uppercase" ∨ name = "Lowercase" ∨ name = "Capitalize"
          ∨ name = "Uncapitalize") := by
        rintro (h | h | h | h) <;> exact hne _ (by decide) h
      have c4 : ¬(name = "Parameters" ∨ name = "ConstructorParameters"
          ∨ name = "ReadonlyArray") := by
        rintro (h | h | h) <;> exact hne _ (by decide) h
      rw [if_neg c1, if_neg c2, if_neg c3, if_neg c4]
      rfl
    simp only [ResolveType.inferRuntimeType]
    rw [hbody]

/-- C5 witness: an indexed access whose index is a function type makes the
guarded body raise, and the entry returns the Unknown tag; an
unresolvable reference named `FooBar` yields the Unknown tag. -/
theorem inferRuntimeType_never_raises_witness :
    (ResolveType.inferRuntimeTypeBody emptyCtx 50
        (.tsIndexedAccessType .tsNumberKeyword (.tsFunctionType none)) emptyScope false none
      = .error .failedResolveIndexKeys
     ∧ ResolveType.inferRuntimeType emptyCtx 51
        (.tsIndexedAccessType .tsNumberKeyword (.tsFunctionType none)) emptyScope false none
      = [UNKNOWN_TYPE])
    ∧ (ResolveType.resolveTypeReference emptyCtx 3 (.tsTypeReference "FooBar" none) emptyScope
        = .ok none
     ∧ ResolveType.inferRuntimeType emptyCtx 5 (.tsTypeReference "FooBar" none) emptyScope
        false none = [UNKNOWN_TYPE]) :=
  ⟨⟨rfl, (inferRuntimeType_never_raises emptyCtx emptyScope).1
      (.tsIndexedAccessType .tsNumberKeyword (.tsFunctionType none)) false none 50
      .failedResolveIndexKeys rfl⟩,
   ⟨rfl, (inferRuntimeType_never_raises emptyCtx emptyScope).2 "FooBar" none 1 rfl
      (by decide)⟩⟩

/-- C7 (amended): for an intersection the main inferencer's result is the
member tags with the Unknown tag unconditionally dropped: a tag is in the
result iff it is not Unknown and some member infers it — so when every
member produced only Unknown the result is the empty list, not the
Unknown tag. The oxc inferencer never drops Unknown: its intersection is
the deduplicated concatenation of the member tags, except that a
deduplicated result with more than one tag among them Object collapses to
exactly the Object tag. -/
theorem inferRuntimeType_intersection_drops_unknown
    (ctx : ResolveType.Ctx) (scope : ResolveType.TypeScope)
    (tp : Option (List (String × Node))) (ts : List Node) (g : Nat) (x : String) :
    (x ∈ ResolveType.inferRuntimeType ctx (g + 1 + 1 + 1) (.tsIntersectionType ts) scope
        false tp
      ↔ (x ≠ UNKNOWN_TYPE
          ∧ ∃ t ∈ ts, x ∈ ResolveType.inferRuntimeType ctx g t scope false tp))
    ∧ (∀ (octx : OxcResolveType.Ctx) (oscope : OxcResolveType.TypeScope)
         (seen seen2 : List String) (gb : OxcResolveType.GenericBindings)
         (g2 : Nat) (ots : List Node) (tags : List String),
        OxcResolveType.inferFlatLoop octx g2 ots oscope seen gb = .ok (tags, seen2) →
        OxcResolveType.inferRuntimeTypeInScope octx (g2 + 1) (.tsIntersectionType ots)
            oscope seen gb
          = if (dedup tags).length > 1 && (dedup tags).contains "Object"
            then .ok (["Object"], seen2)
            else .ok (dedup tags, seen2)) := by
  constructor
  · have hflat : x ∈ ResolveType.flattenTypes ctx (g + 1) ts scope false tp
        ↔ ∃ t ∈ ts, x ∈ ResolveType.inferRuntimeType ctx g t scope false tp := by
      match ts with
      | [] =>
        show x ∈ ([] : List String) ↔ _
        simp
      | [t] =>
        show x ∈ ResolveType.inferRuntimeType ctx g t scope false tp ↔ _
        simp
      | t :: u :: rest =>
        show x ∈ dedup ((t :: u :: rest).foldl
            (fun acc t => acc ++ ResolveType.inferRuntimeType ctx g t scope false tp) []) ↔ _
        rw [mem_dedup, mem_foldl_append]
        simp
    show x ∈ (ResolveType.flattenTypes ctx (g + 1) ts scope false tp).filter
        (fun t => t != UNKNOWN_TYPE) ↔ _
    rw [List.mem_filter, hflat]
    constructor
    · rintro ⟨hmem, hne⟩
      exact ⟨by simpa using hne, hmem⟩
    · rintro ⟨hne, hmem⟩
      exact ⟨hmem, by simpa using hne⟩
  · intro octx oscope seen seen2 gb g2 ots tags hflat2
    simp only [OxcResolveType.inferRuntimeTypeInScope]
    rw [hflat2]
    rfl

/-- C9: when `T` decomposes to the element map `t` and neither `Required`
nor `Partial` resolves to a declaration or a bound type parameter,
decomposing `Required<Partial<T>>` succeeds with exactly `t`'s key set,
every property spread-copied to non-optional, and `t`'s call
signatures — regardless of which properties of `T` were optional. -/
theorem resolveBuiltin_required_partial
    (ctx : ResolveType.Ctx) (scope : ResolveType.TypeScope)
    (tp : Option (List (String × Node))) (T : Node)
    (t : ResolveType.ResolvedElements) (g : Nat)
    (hT : ResolveType.resolveTypeElements ctx g T scope tp = .ok t)
    (htpPar : ResolveType.tpGet tp "Partial" = none)
    (htpReq : ResolveType.tpGet tp "Required" = none)
    (hyPar : ResolveType.resolveTypeReference ctx (g + 1)
        (.tsTypeReference "Partial" (some [T])) scope = .ok none)
    (hyReq : ResolveType.resolveTypeReference ctx (g + 1 + 1 + 1 + 1)
        (.tsTypeReference "Required" (some [.tsTypeReference "Partial" (some [T])])) scope
        = .ok none) :
    ∃ out,
      ResolveType.resolveTypeElements ctx (g + 1 + 1 + 1 + 1 + 1 + 1)
          (.tsTypeReference "Required" (some [.tsTypeReference "Partial" (some [T])]))
          scope tp = .ok out
      ∧ objKeys out.props = objKeys t.props
      ∧ (∀ x p, objGet out.props x = some p → ResolveType.nodeOptionalField p = false)
      ∧ out.calls = t.calls := by
  have sPar : ResolveType.resolveTypeElements ctx (g + 1 + 1 + 1)
      (.tsTypeReference "Partial" (some [T])) scope tp
      = .ok ⟨t.props.map
            (fun kv => (kv.1, some (ResolveType.spreadSetOptional kv.2 true))),
          t.calls⟩ := by
    have e1 : ResolveType.resolveTypeElements ctx (g + 1 + 1 + 1)
        (.tsTypeReference "Partial" (some [T])) scope tp
        = (do
            let resolved ← ResolveType.resolveTypeReference ctx (g + 1)
              (.tsTypeReference "Partial" (some [T])) scope
            match resolved with
            | some (resNode, resScope) =>
              ResolveType.resolveTypeElements ctx (g + 1) resNode resScope none
            | none =>
              match ResolveType.tpGet tp "Partial" with
              | some bound => ResolveType.resolveTypeElements ctx (g + 1) bound scope tp
              | none =>
                ResolveType.resolveBuiltin ctx (g + 1) "Partial" (some [T]) scope tp) := rfl
    have e2 : ResolveType.resolveBuiltin ctx (g + 1) "Partial" (some [T]) scope tp
        = (match ResolveType.resolveTypeElements ctx g T scope tp with
           | .error _ => pure {}
           | .ok t1 => pure ⟨t1.props.map
                 (fun kv => (kv.1, some (ResolveType.spreadSetOptional kv.2 true))),
               t1.calls⟩) := rfl
    rw [e1, hyPar, htpPar, e2, hT]
    rfl
  have sReq : ResolveType.resolveTypeElements ctx (g + 1 + 1 + 1 + 1 + 1 + 1)
      (.tsTypeReference "Required" (some [.tsTypeReference "Partial" (some [T])])) scope tp
      = .ok ⟨(t.props.map
              (fun kv => (kv.1, some (ResolveType.spreadSetOptional kv.2 true)))).map
            (fun kv => (kv.1, some (ResolveType.spreadSetOptional kv.2 false))),
          t.calls⟩ := by
    have e3 : ResolveType.resolveTypeElements ctx (g + 1 + 1 + 1 + 1 + 1 + 1)
        (.tsTypeReference "Required" (some [.tsTypeReference "Partial" (some [T])])) scope tp
        = (do
            let resolved ← ResolveType.resolveTypeReference ctx (g + 1 + 1 + 1 + 1)
              (.tsTypeReference "Required" (some [.tsTypeReference "Partial" (some [T])]))
              scope
            match resolved with
            | some (resNode, resScope) =>
              ResolveType.resolveTypeElements ctx (g + 1 + 1 + 1 + 1) resNode resScope none
            | none =>
              match ResolveType.tpGet tp "Required" with
              | some bound =>
                ResolveType.resolveTypeElements ctx (g + 1 + 1 + 1 + 1) bound scope tp
              | none =>
                ResolveType.resolveBuiltin ctx (g + 1 + 1 + 1 + 1) "Required"
                  (some [.tsTypeReference "Partial" (some [T])]) scope tp) := rfl
    have e4 : ResolveType.resolveBuiltin ctx (g + 1 + 1 + 1 + 1) "Required"
        (some [.tsTypeReference "Partial" (some [T])]) scope tp
        = (match ResolveType.resolveTypeElements ctx (g + 1 + 1 + 1)
              (.tsTypeReference "Partial" (some [T])) scope tp with
           | .error _ => pure {}
           | .ok t1 => pure ⟨t1.props.map
                 (fun kv => (kv.1, some (ResolveType.spreadSetOptional kv.2 false))),
               t1.calls⟩) := rfl
    rw [e3, hyReq, htpReq, e4, sPar]
    rfl
  refine ⟨_, sReq, ?_, ?_, ?_⟩
  · exact (ResolveType.objKeys_map_snd _ _).trans (ResolveType.objKeys_map_snd _ _)
  · intro x p hp
    obtain ⟨e, he, he2⟩ := ResolveType.objGet_mem _ x p hp
    rw [List.mem_map] at he
    obtain ⟨e1, _, he1⟩ := he
    rw [← he1] at he2
    have hpe : p = ResolveType.spreadSetOptional e1.2 false := by
      simpa using he2.symm
    rw [hpe]
    exact ResolveType.nodeOptionalField_spread_false e1.2
  · rfl

/-- C9 witness: `T = {a: string; b?: number}` decomposes with `a`
required and `b` optional; `Required<Partial<T>>` keeps keys `a`, `b`
with both properties non-optional. -/
theorem resolveBuiltin_required_partial_witness :
    ResolveType.resolveTypeElements emptyCtx 2 (.tsTypeLiteral [propA, propB]) emptyScope
        none = .ok { props := [("a", some propA), ("b", some propB)] }
    ∧ ∃ out,
      ResolveType.resolveTypeElements emptyCtx (2 + 1 + 1 + 1 + 1 + 1 + 1)
          (.tsTypeReference "Required"
            (some [.tsTypeReference "Partial" (some [.tsTypeLiteral [propA, propB]])]))
          emptyScope none = .ok out
      ∧ objKeys out.props = objKeys [("a", some propA), ("b", some propB)]
      ∧ (∀ x p, objGet out.props x = some p → ResolveType.nodeOptionalField p = false)
      ∧ out.calls = none :=
  ⟨rfl,
   resolveBuiltin_required_partial emptyCtx emptyScope none (.tsTypeLiteral [propA, propB])
     { props := [("a", some propA), ("b", some propB)] } 2 rfl rfl rfl rfl rfl⟩

/-- C10: when the first `Pick` argument decomposes to `t` and the second
reduces to the key list `keys`, the main decomposer's `Pick` returns a
map whose key set is exactly `keys` — every picked key gets an entry, and
a key absent from `t` is bound to `t`'s (undefined) value for it rather
than omitted. -/
theorem resolveBuiltin_pick_keys
    (ctx : ResolveType.Ctx) (scope : ResolveType.TypeScope)
    (tp : Option (List (String × Node))) (a0 a1 : Node)
    (t : ResolveType.ResolvedElements) (keys : List ResolveType.StrE) (g : Nat)
    (hT : ResolveType.resolveTypeElements ctx g a0 scope tp = .ok t)
    (hK : ResolveType.resolveStringType ctx g a1 scope tp = .ok (some keys)) :
    ResolveType.resolveBuiltin ctx (g + 1) "Pick" (some [a0, a1]) scope tp
      = .ok ⟨keys.foldl (fun m k =>
            objSet m (ResolveType.strEKey k) (objGet t.props (ResolveType.strEKey k))) [],
          t.calls⟩
    ∧ (∀ x, objHas (keys.foldl (fun m k =>
          objSet m (ResolveType.strEKey k) (objGet t.props (ResolveType.strEKey k))) []) x
        = keys.any fun k => ResolveType.strEKey k == x)
    ∧ (∀ k ∈ keys, objGetEntry (keys.foldl (fun m k2 =>
          objSet m (ResolveType.strEKey k2) (objGet t.props (ResolveType.strEKey k2))) [])
          (ResolveType.strEKey k)
        = some (objGet t.props (ResolveType.strEKey k))) := by
  refine ⟨?_, ?_, ?_⟩
  · have e : ResolveType.resolveBuiltin ctx (g + 1) "Pick" (some [a0, a1]) scope tp
        = (do
            let t1 ← match ResolveType.resolveTypeElements ctx g a0 scope tp with
              | .error _ => pure ({} : ResolveType.ResolvedElements)
              | .ok t1 => pure t1
            let picked ← ResolveType.resolveStringType ctx g a1 scope tp
            match picked with
            | none => throw Err.jsTypeError
            | some keys2 =>
              pure ⟨keys2.foldl (fun m k2 =>
                  objSet m (ResolveType.strEKey k2)
                    (objGet t1.props (ResolveType.strEKey k2))) [],
                t1.calls⟩) := rfl
    rw [e, hT, hK]
    rfl
  · intro x
    rw [ResolveType.pickFold_has t.props keys [] x]
    simp [objHas]
  · intro k hk
    apply ResolveType.pickFold_entry
    rw [List.any_eq_true]
    exact ⟨k, hk, by simp⟩

/-- C10 witness: `Pick<{a: string}, "a" | "zzz">` has entries for both
`a` and the absent key `zzz`, the latter bound to an undefined
descriptor. -/
theorem resolveBuiltin_pick_keys_witness :
    ResolveType.resolveStringType emptyCtx 3
        (.tsUnionType [.tsLiteralType (.strLit "a"), .tsLiteralType (.strLit "zzz")])
        emptyScope none = .ok (some [some "a", some "zzz"])
    ∧ ResolveType.resolveBuiltin emptyCtx 4 "Pick"
        (some [.tsTypeLiteral [propA],
               .tsUnionType [.tsLiteralType (.strLit "a"), .tsLiteralType (.strLit "zzz")]])
        emptyScope none
      = .ok { props := [("a", some propA), ("zzz", none)], calls := none } :=
  ⟨rfl,
   (resolveBuiltin_pick_keys emptyCtx emptyScope none (.tsTypeLiteral [propA])
     (.tsUnionType [.tsLiteralType (.strLit "a"), .tsLiteralType (.strLit "zzz")])
     { props := [("a", some propA)] } [some "a", some "zzz"] 3 rfl rfl).1⟩

end FixVueTypes
